import Mathlib

/-
Verification of the jyotishika astrology backend.

Shallow embedding conventions:
* Instants (Python `datetime` values) are rationals, counted in days since an
  arbitrary epoch; `timedelta(days = x)` becomes addition of `x`.  The code's
  round trips through ISO-8601 strings are identities on the instant and are
  dropped.  Degree values and day counts (Python floats) are embedded as `ℚ`
  with exact arithmetic; the float constant `13.333333333333334` is read as the
  intended `360/27`, matching `NAKSHATRA_SPAN_DEG = 360.0/27.0` in
  `app/astro/constants.py`.
* Python's `x % 360.0` (sign of the divisor) is `pyMod`.
* The `while cursor < window_end` loop of `calculate_vimshottari_timeline` is
  embedded with an explicit fuel argument; the top level supplies fuel that is
  provably sufficient (`mahaLoop_fuel_irrelevant`), since every iteration
  advances the cursor by at least six 365.25-day years.
* A dict key that is only conditionally set (`active`, `antardasha`,
  `pratyantardasha`) becomes an `Option`/possibly-empty-list field; a missing
  key and `none`/`[]` are identified.
-/

/-- Source: `app/astro/dasha.py`, `DASHA_LORDS` — the nine lords in canonical
cyclic order. -/
def DASHA_LORDS : List String :=
  ["Ketu", "Venus", "Sun", "Moon", "Mars", "Rahu", "Jupiter", "Saturn", "Mercury"]

/-- Source: `app/astro/dasha.py`, `DASHA_YEARS` — the year weight of each lord.
The Python dict is total on the nine lords; the catch-all returns 0 and is
never reached by the program. -/
def DASHA_YEARS : String → ℕ
  | "Ketu" => 7
  | "Venus" => 20
  | "Sun" => 6
  | "Moon" => 10
  | "Mars" => 7
  | "Rahu" => 18
  | "Jupiter" => 16
  | "Saturn" => 19
  | "Mercury" => 17
  | _ => 0

/-- Source: `app/astro/dasha.py`, `DAYS_PER_YEAR = 365.25`. -/
def DAYS_PER_YEAR : ℚ := 365.25

/-- Python float modulo (`x % m`): the representative of `x` mod `m` with the
sign of `m`; for `m > 0` the result lies in `[0, m)`. -/
def pyMod (x m : ℚ) : ℚ := x - m * ⌊x / m⌋

/-- Source: `app/astro/dasha.py`, `NAKSHATRA_SPAN_DEG` (13°20′ = 360/27). -/
def NAKSHATRA_SPAN_DEG : ℚ := 360 / 27

/-- Source: `app/astro/dasha.py`, `_nakshatra_index_and_fraction`. -/
def _nakshatra_index_and_fraction (longitude_sidereal : ℚ) : ℕ × ℚ :=
  let lon := pyMod longitude_sidereal 360
  let idx0 := (⌊lon / NAKSHATRA_SPAN_DEG⌋).toNat
  let within := lon - (idx0 : ℚ) * NAKSHATRA_SPAN_DEG
  (idx0, within / NAKSHATRA_SPAN_DEG)

/-- Source: `app/astro/dasha.py`, `_seq_from` — the lord table rotated to start
at `start_index`. -/
def _seq_from (start_index : ℕ) (items : List String) : List String :=
  (List.range items.length).map (fun i => items.getD ((start_index + i) % items.length) "")

/-- Source: `app/astro/dasha.py`, `_overlaps` — half-open interval overlap test
`not (a_end <= window_start or a_start >= window_end)`. -/
def _overlaps (a_start a_end window_start window_end : ℚ) : Bool :=
  !(decide (a_end ≤ window_start) || decide (a_start ≥ window_end))

/-- Source: `app/astro/dasha.py`, `_trim_to_window`. -/
def _trim_to_window (start stop window_start window_end : ℚ) : ℚ × ℚ :=
  (if start ≥ window_start then start else window_start,
   if stop ≤ window_end then stop else window_end)

/-- One node of the emitted timeline: the dict
`{lord, level, start, end, durationDays, yearsShare, active?, antardasha/pratyantardasha?}`
of `app/astro/dasha.py`.  The child key (`antardasha` at level 1,
`pratyantardasha` at level 2) becomes the single field `children`; `stop` is
the dict's `end` key (a Lean keyword). -/
structure Period where
  lord : String
  level : ℕ
  start : ℚ
  stop : ℚ
  durationDays : ℚ
  yearsShare : ℚ
  active : Option Bool
  children : List Period

instance : Inhabited Period :=
  ⟨{ lord := "", level := 0, start := 0, stop := 0, durationDays := 0, yearsShare := 0,
     active := none, children := [] }⟩

/-- The cursor-passing loop body of `_subdivide`: one output dict per sub-lord,
each child starting where the previous one ended. -/
def subChildren (duration_days : ℚ) (level : ℕ) : ℚ → List String → List Period
  | _, [] => []
  | cursor, l :: ls =>
    { lord := l, level := level, start := cursor,
      stop := cursor + duration_days * ((DASHA_YEARS l : ℚ) / 120),
      durationDays := duration_days * ((DASHA_YEARS l : ℚ) / 120),
      yearsShare := (DASHA_YEARS l : ℚ), active := none, children := [] }
    :: subChildren duration_days level (cursor + duration_days * ((DASHA_YEARS l : ℚ) / 120)) ls

/-- Source: `app/astro/dasha.py`, `_subdivide` — proportional subdivision of a
parent interval into 9 children, lords rotated to start at the parent lord. -/
def _subdivide (parent_start parent_end : ℚ) (parent_lord : String) (level : ℕ) : List Period :=
  let duration_days := parent_end - parent_start
  let start_index := DASHA_LORDS.indexOf parent_lord
  let sub_lords := _seq_from start_index DASHA_LORDS
  subChildren duration_days level parent_start sub_lords

/-- Source: `app/astro/dasha.py`, `_build_children_with_full_parent` — build the
canonical Antardashas (and Pratyantardashas) for the full parent interval, then
clip each one to the `[visible_start, visible_end]` window, dropping the ones
that do not overlap it.  Returns the `antardasha` list attached to the node
(empty list standing for an absent key). -/
def _build_children_with_full_parent (parent_lord : String)
    (parent_start_full parent_end_full visible_start visible_end : ℚ)
    (depth : ℤ) (at_dt : Option ℚ) : List Period :=
  if depth < 2 then []
  else
    (_subdivide parent_start_full parent_end_full parent_lord 2).filterMap (fun c_full =>
      if _overlaps c_full.start c_full.stop visible_start visible_end then
        let sv := _trim_to_window c_full.start c_full.stop visible_start visible_end
        let level3 : List Period :=
          if depth ≥ 3 then
            (_subdivide c_full.start c_full.stop c_full.lord 3).filterMap (fun cc_full =>
              if _overlaps cc_full.start cc_full.stop visible_start visible_end then
                let sv3 := _trim_to_window cc_full.start cc_full.stop visible_start visible_end
                some { lord := cc_full.lord, level := 3, start := sv3.1, stop := sv3.2,
                       durationDays := sv3.2 - sv3.1,
                       yearsShare := (DASHA_YEARS cc_full.lord : ℚ),
                       active := at_dt.map (fun t => decide (sv3.1 ≤ t ∧ t < sv3.2)),
                       children := [] }
              else none)
          else []
        some { lord := c_full.lord, level := 2, start := sv.1, stop := sv.2,
               durationDays := sv.2 - sv.1,
               yearsShare := (DASHA_YEARS c_full.lord : ℚ),
               active := at_dt.map (fun t => decide (sv.1 ≤ t ∧ t < sv.2)),
               children := level3 }
      else none)

/-- Source: `app/astro/dasha.py`, the local `attach_children` helper of
`calculate_vimshottari_timeline`: subdivide `[start_dt, end_dt)` directly and
attach level-2 (and, at depth 3, level-3) children with their active flags. -/
def attach_children (depth : ℤ) (at_dt : Option ℚ) (start_dt end_dt : ℚ) (lord : String) :
    List Period :=
  if depth ≥ 2 then
    (_subdivide start_dt end_dt lord 2).map (fun c =>
      let kids : List Period :=
        if depth ≥ 3 then
          (_subdivide c.start c.stop c.lord 3).map (fun cc =>
            { cc with active := at_dt.map (fun t => decide (cc.start ≤ t ∧ t < cc.stop)) })
        else []
      { c with active := at_dt.map (fun t => decide (c.start ≤ t ∧ t < c.stop)),
               children := kids })
  else []

/-- Derived quantity of `calculate_vimshottari_timeline`: the window start,
`from_date` defaulting to birth. -/
def window_start_of (birth_utc : ℚ) (from_date : Option ℚ) : ℚ :=
  from_date.getD birth_utc

/-- Derived quantity of `calculate_vimshottari_timeline`: the window end,
`to_date` defaulting to birth + 120 years. -/
def window_end_of (birth_utc : ℚ) (to_date : Option ℚ) : ℚ :=
  to_date.getD (birth_utc + 120 * DAYS_PER_YEAR)

/-- Depth clamping of `calculate_vimshottari_timeline` (`depth < 1 → 1`,
`depth > 3 → 3`). -/
def clamp_depth (depth : ℤ) : ℤ :=
  if depth < 1 then 1 else if depth > 3 then 3 else depth

/-- Local `start_lord` of `calculate_vimshottari_timeline`:
`DASHA_LORDS[nak_idx0 % 9]`. -/
def start_lord_of (moon_longitude_sidereal : ℚ) : String :=
  DASHA_LORDS.getD ((_nakshatra_index_and_fraction moon_longitude_sidereal).1 % 9) ""

/-- Local `balance_days` of `calculate_vimshottari_timeline`:
`(1 - frac) * years(start_lord) * DAYS_PER_YEAR`. -/
def balance_days_of (moon_longitude_sidereal : ℚ) : ℚ :=
  (1 - (_nakshatra_index_and_fraction moon_longitude_sidereal).2) *
    (DASHA_YEARS (start_lord_of moon_longitude_sidereal) : ℚ) * DAYS_PER_YEAR

/-- Local `first_end` of `calculate_vimshottari_timeline`: birth plus the
remaining balance of the running Mahadasha. -/
def first_end_of (birth_utc moon_longitude_sidereal : ℚ) : ℚ :=
  birth_utc + balance_days_of moon_longitude_sidereal

/-- Local `maha_start_full` of `calculate_vimshottari_timeline`: the canonical
(pre-birth) start of the first Mahadasha,
`birth - consumed_years_before_birth * DAYS_PER_YEAR`. -/
def maha_start_full_of (birth_utc moon_longitude_sidereal : ℚ) : ℚ :=
  birth_utc -
    ((DASHA_YEARS (start_lord_of moon_longitude_sidereal) : ℚ) -
      (1 - (_nakshatra_index_and_fraction moon_longitude_sidereal).2) *
        (DASHA_YEARS (start_lord_of moon_longitude_sidereal) : ℚ)) * DAYS_PER_YEAR

/-- Local `maha_end_full` of `calculate_vimshottari_timeline`: canonical start
plus the full Mahadasha length. -/
def maha_end_full_of (birth_utc moon_longitude_sidereal : ℚ) : ℚ :=
  maha_start_full_of birth_utc moon_longitude_sidereal +
    (DASHA_YEARS (start_lord_of moon_longitude_sidereal) : ℚ) * DAYS_PER_YEAR

/-- The `while cursor < window_end` sweep of `calculate_vimshottari_timeline`,
with explicit fuel.  `lord_index` is `DASHA_LORDS.index(start_lord)` and `k`
counts Mahadashas after the first. -/
def mahaLoop (window_start window_end : ℚ) (depth : ℤ) (at_dt : Option ℚ)
    (lord_index : ℕ) : ℕ → ℚ → ℕ → List Period
  | 0, _, _ => []
  | fuel + 1, cursor, k =>
    if cursor < window_end then
      let lord := DASHA_LORDS.getD ((lord_index + k) % 9) ""
      let years : ℚ := (DASHA_YEARS lord : ℚ)
      let days := years * DAYS_PER_YEAR
      let start_dt := cursor
      let end_dt := start_dt + days
      let here : List Period :=
        if _overlaps start_dt end_dt window_start window_end then
          let se := _trim_to_window start_dt end_dt window_start window_end
          let is_last_truncated : Bool :=
            decide (end_dt > window_end) && decide (start_dt < window_end)
          let node : Period :=
            { lord := lord, level := 1, start := se.1, stop := se.2,
              durationDays := se.2 - se.1, yearsShare := years,
              active := at_dt.map (fun t => decide (se.1 ≤ t ∧ t < se.2)),
              children :=
                if depth ≥ 2 ∧ is_last_truncated then
                  _build_children_with_full_parent lord start_dt end_dt
                    window_start window_end depth at_dt
                else
                  attach_children depth at_dt se.1 se.2 lord }
          [node]
        else []
      here ++ mahaLoop window_start window_end depth at_dt lord_index fuel end_dt (k + 1)
    else []

/-- Metadata dict returned by `calculate_vimshottari_timeline`. -/
structure DashaMeta where
  system : String
  depth : ℤ
  fromDate : ℚ
  toDate : ℚ

/-- Source: `app/astro/dasha.py`, `calculate_vimshottari_timeline`.  Builds the
emitted Mahadasha list (with nested Antardashas / Pratyantardashas down to the
clamped depth) plus metadata.  The first Mahadasha is the balance remaining
from birth and always derives its children from its canonical full interval
clipped to `[max(birth, window_start), min(maha_end_full, window_end)]`; later
Mahadashas use `attach_children` unless truncated by the window end. -/
def calculate_vimshottari_timeline (birth_utc moon_longitude_sidereal : ℚ)
    (depth0 : ℤ) (from_date to_date at_date : Option ℚ) :
    List Period × DashaMeta :=
  let depth := clamp_depth depth0
  let window_start := window_start_of birth_utc from_date
  let window_end := window_end_of birth_utc to_date
  let at_dt := at_date
  let start_lord := start_lord_of moon_longitude_sidereal
  let cursor := birth_utc
  let first_end := first_end_of birth_utc moon_longitude_sidereal
  let firstPart : List Period :=
    if _overlaps cursor first_end window_start window_end then
      let se := _trim_to_window cursor first_end window_start window_end
      let maha_start_full := maha_start_full_of birth_utc moon_longitude_sidereal
      let maha_end_full := maha_end_full_of birth_utc moon_longitude_sidereal
      let visible_start := max birth_utc window_start
      let visible_end := min maha_end_full window_end
      [{ lord := start_lord, level := 1, start := se.1, stop := se.2,
         durationDays := se.2 - se.1,
         yearsShare := (DASHA_YEARS start_lord : ℚ),
         active := at_dt.map (fun t => decide (se.1 ≤ t ∧ t < se.2)),
         children := _build_children_with_full_parent start_lord
           maha_start_full maha_end_full visible_start visible_end depth at_dt }]
    else []
  let lord_index := DASHA_LORDS.indexOf start_lord
  let fuel := (⌈window_end - first_end⌉).toNat + 1
  let rest := mahaLoop window_start window_end depth at_dt lord_index fuel first_end 1
  (firstPart ++ rest,
   { system := "vimshottari", depth := depth, fromDate := window_start, toDate := window_end })

/-- Nodes of the emitted timeline `g` generations below the top: generation 0
is the Mahadasha list itself, generation 1 the emitted Antardashas, generation
2 the emitted Pratyantardashas. -/
def levelEmitted : ℕ → List Period → List Period
  | 0, tl => tl
  | g + 1, tl => levelEmitted g (tl.flatMap Period.children)


/-- Source: `app/astro/utils.py`, `norm360` — normalize a longitude into
`[0, 360)`. -/
def norm360 (x : ℚ) : ℚ := pyMod x 360

/-- Source: `app/astro/constants.py`, `ZODIAC_SIGNS`. -/
def ZODIAC_SIGNS : List String :=
  ["Aries", "Taurus", "Gemini", "Cancer", "Leo", "Virgo",
   "Libra", "Scorpio", "Sagittarius", "Capricorn", "Aquarius", "Pisces"]

/-- Source: `app/astro/constants.py`, `FIRE_SIGNS = {0, 4, 8}`. -/
def FIRE_SIGNS : List ℕ := [0, 4, 8]

/-- Source: `app/astro/constants.py`, `EARTH_SIGNS = {1, 5, 9}`. -/
def EARTH_SIGNS : List ℕ := [1, 5, 9]

/-- Source: `app/astro/constants.py`, `AIR_SIGNS = {2, 6, 10}`. -/
def AIR_SIGNS : List ℕ := [2, 6, 10]

/-- Source: `app/astro/utils.py`, `_navamsha_start_sign_index_for_element` —
anchor sign index for the base sign's element (fire → Aries 0, earth →
Capricorn 9, air → Libra 6, water → Cancer 3). -/
def _navamsha_start_sign_index_for_element (sign_index_0 : ℕ) : ℕ :=
  if FIRE_SIGNS.contains sign_index_0 then 0
  else if EARTH_SIGNS.contains sign_index_0 then 9
  else if AIR_SIGNS.contains sign_index_0 then 6
  else 3

/-- Result dict of `get_navamsha_info`. -/
structure NavamshaInfo where
  signIndex : ℕ
  sign : String
  ordinal : ℕ
  degreeInNavamsha : ℚ
deriving DecidableEq

/-- Source: `app/astro/utils.py`, `get_navamsha_info` — navamsha sign and
related info from a sidereal longitude. -/
def get_navamsha_info (longitude_sidereal : ℚ) : NavamshaInfo :=
  let lon := pyMod longitude_sidereal 360
  let base_sign_index := (⌊lon / 30⌋).toNat
  let deg_in_sign := lon - (base_sign_index : ℚ) * 30
  let nav_span : ℚ := 30 / 9
  let ordinal_1to9 := (⌊deg_in_sign / nav_span⌋).toNat + 1
  let degree_in_navamsha := deg_in_sign - ((ordinal_1to9 : ℚ) - 1) * nav_span
  let start_sign := _navamsha_start_sign_index_for_element base_sign_index
  let nav_sign_index := (start_sign + (ordinal_1to9 - 1)) % 12
  { signIndex := nav_sign_index,
    sign := ZODIAC_SIGNS.getD nav_sign_index "",
    ordinal := ordinal_1to9,
    degreeInNavamsha := degree_in_navamsha }

/-- One quadrant of `compute_sripati_cusps`: the arc between two consecutive
cardinal Madhyas (with wraparound at 360°) trisected into three house
Madhyas. -/
def quadrant_madhyas (start_madhya end_madhya : ℚ) : List ℚ :=
  let arc := if end_madhya ≥ start_madhya then end_madhya - start_madhya
             else (360 - start_madhya) + end_madhya
  let house_span := arc / 3
  [start_madhya, norm360 (start_madhya + 1 * house_span), norm360 (start_madhya + 2 * house_span)]

/-- Source: `app/astro/engine.py`, `compute_sripati_cusps` — the 12 Bhava
Sandhis obtained by trisecting the four quadrants into 12 Madhyas and taking
circular midpoints of consecutive Madhyas (the source tags each Madhya with its
house number and sorts by it; the quadrants already emit houses 1..12 in
ascending order, so that sort is the identity and is omitted here). -/
def compute_sripati_cusps (asc ic dsc mc : ℚ) : List ℚ :=
  let madhya_list := quadrant_madhyas asc ic ++ quadrant_madhyas ic dsc ++
                     quadrant_madhyas dsc mc ++ quadrant_madhyas mc asc
  (List.range 12).map (fun i =>
    let madhya_current := madhya_list.getD i 0
    let madhya_next := madhya_list.getD ((i + 1) % 12) 0
    if madhya_next ≥ madhya_current then
      norm360 (madhya_current + (madhya_next - madhya_current) / 2)
    else
      norm360 (madhya_current + ((360 - madhya_current) + madhya_next) / 2))

/-- Source: `app/chart_calc.py`, `calculate_chart_for_profile` lines 97–109 —
the inline longitude-to-house scan over an explicit cusp list: the first
segment `[cusp[i], cusp[i+1])` that contains the planet wins, the last
segment's upper bound being `cusp[0] + 360`, with a final `planet >= cusp[11]`
fallback; `house_num` is initialized to 1. -/
def house_scan (cusps : List ℚ) (planet_long : ℚ) : ℕ :=
  match (List.range cusps.length).find? (fun i =>
    let cusp := cusps.getD i 0
    let next_cusp := if i < cusps.length - 1 then cusps.getD (i + 1) 0
                     else cusps.getD 0 0 + 360
    decide ((cusp ≤ planet_long ∧ planet_long < next_cusp) ∨
            (i = cusps.length - 1 ∧ planet_long ≥ cusp))) with
  | some i => i + 1
  | none => 1

/-- Modelled from the spec: §4.2 **ExplicitCusps** membership of a longitude in
the cyclic segment `[lo, hi)`, the segment wrapping past 0° when `hi < lo`
(e.g. `355° ∈ [350°, 380° ≡ 20°)`). -/
def spec_in_arc (lo hi x : ℚ) : Bool :=
  if lo ≤ hi then decide (lo ≤ x ∧ x < hi) else decide (lo ≤ x ∨ x < hi)

/-- Modelled from the spec: §4.2 **ExplicitCusps** — given 12 cusp angles in
ascending cyclic order, return the house of the first cyclic segment
`[cusp[i], cusp[i+1 mod 12])` containing the longitude (the shared
`house_from_cusps` lookup of `app/astro/utils.py` is absent from the provided
sources; only its callers survive). -/
def spec_house_from_cusps (cusps : List ℚ) (x : ℚ) : ℕ :=
  match (List.range cusps.length).find? (fun i =>
    spec_in_arc (cusps.getD i 0) (cusps.getD ((i + 1) % cusps.length) 0) x) with
  | some i => i + 1
  | none => 0

/-- Modelled from the spec: §4.3 rule 6 — "child lords = table rotated to start
at L". -/
def spec_rotation (L : String) : List String :=
  DASHA_LORDS.drop (DASHA_LORDS.indexOf L) ++ DASHA_LORDS.take (DASHA_LORDS.indexOf L)

/-- The sub-list `xs` occurs as one contiguous block of `ys`. -/
def IsBlockOf (xs ys : List String) : Prop :=
  ∃ a b, ys = a ++ xs ++ b

/-- Observable view of one child period: lord and clipped bounds. -/
def childView (p : Period) : String × ℚ × ℚ :=
  (p.lord, p.start, p.stop)

/-- Modelled from the spec: §4.3 rules 6+7 — subdivide the canonical full
parent interval (rule 6, verified against `_subdivide` by claim C3's theorem),
then clip each child to the visible window per step 4's
`start = max(periodStart, windowStart)`, `end = min(periodEnd, windowEnd)`,
keeping only children that overlap the window. -/
def spec_canonical_clip (full_start full_end visible_start visible_end : ℚ)
    (L : String) (lvl : ℕ) : List (String × ℚ × ℚ) :=
  (_subdivide full_start full_end L lvl).filterMap (fun c =>
    if visible_start < c.stop ∧ c.start < visible_end then
      some (c.lord, max c.start visible_start, min c.stop visible_end)
    else none)

/-- Observable two-level view of an emitted period: lord, clipped bounds, and
the same data for its children. -/
structure SpecChild where
  lord : String
  start : ℚ
  stop : ℚ
  sub : List (String × ℚ × ℚ)
deriving DecidableEq

/-- Modelled from the spec: §4.3 rule 7 — the children of a truncated parent
are the canonical subdivision of its full interval clipped to the visible
window, and the rule recurses: level-3 children of a level-2 child come from
that child's canonical (unclipped) interval, again clipped to the visible
window. -/
def spec_children (full_start full_end visible_start visible_end : ℚ)
    (L : String) (withLevel3 : Bool) : List SpecChild :=
  (_subdivide full_start full_end L 2).filterMap (fun c =>
    if visible_start < c.stop ∧ c.start < visible_end then
      some { lord := c.lord,
             start := max c.start visible_start,
             stop := min c.stop visible_end,
             sub := if withLevel3 then
                      spec_canonical_clip c.start c.stop visible_start visible_end c.lord 3
                    else [] }
    else none)

/-- Observable view of an emitted period together with its children. -/
def nodeView (p : Period) : SpecChild :=
  { lord := p.lord, start := p.start, stop := p.stop, sub := p.children.map childView }
/-- Total year weight of a lord list, as a rational. -/
def wSumQ (ls : List String) : ℚ := (ls.map (fun l => (DASHA_YEARS l : ℚ))).sum

/-- Modelled from the spec: the navamsha anchor sign index of a base sign,
chosen by the base sign's element: fire signs (Aries 0, Leo 4, Sagittarius 8)
anchor at Aries (index 0); earth signs (1, 5, 9) at Capricorn (9); air signs
(2, 6, 10) at Libra (6); water signs (3, 7, 11) at Cancer (3). -/
def spec_navamsha_anchor (base_sign : ℕ) : ℕ :=
  if base_sign = 0 ∨ base_sign = 4 ∨ base_sign = 8 then 0
  else if base_sign = 1 ∨ base_sign = 5 ∨ base_sign = 9 then 9
  else if base_sign = 2 ∨ base_sign = 6 ∨ base_sign = 10 then 6
  else 3

/-- Invariant of every emitted timeline node: the active flag is computed from
the node's own clipped bounds, the children are sorted with pairwise
non-overlapping half-open intervals, every child lies within the parent's
clipped bounds, the lord is one of the nine table lords, and the children's
lords form one contiguous block of the lord table rotated to start at the
parent's lord; the invariant recurses into the children. -/
inductive TreeInv (at_dt : Option ℚ) : Period → Prop where
  | mk (p : Period)
      (hactive : p.active = at_dt.map (fun t => decide (p.start ≤ t ∧ t < p.stop)))
      (hsorted : List.Pairwise (fun a b => a.stop ≤ b.start) p.children)
      (hsub : ∀ c ∈ p.children, p.start ≤ c.start ∧ c.stop ≤ p.stop)
      (hlord : p.lord ∈ DASHA_LORDS)
      (hblock : IsBlockOf (p.children.map Period.lord) (spec_rotation p.lord))
      (hrec : ∀ c ∈ p.children, TreeInv at_dt c) : TreeInv at_dt p

/-! Basic facts about the rotated lord table and `subChildren`. -/

lemma DASHA_LORDS_length : DASHA_LORDS.length = 9 := rfl

lemma seq_from_length (i : ℕ) : (_seq_from i DASHA_LORDS).length = 9 := by
  simp [_seq_from, DASHA_LORDS]

lemma seq_from_mem {i : ℕ} {x : String} (hx : x ∈ _seq_from i DASHA_LORDS) :
    x ∈ DASHA_LORDS := by
  simp only [_seq_from, List.mem_map, List.mem_range] at hx
  obtain ⟨j, -, rfl⟩ := hx
  have hlt : (i + j) % DASHA_LORDS.length < DASHA_LORDS.length :=
    Nat.mod_lt _ (by simp [DASHA_LORDS])
  rw [List.getD_eq_get _ _ hlt]
  exact List.get_mem _ _ _

lemma DASHA_YEARS_pos {x : String} (hx : x ∈ DASHA_LORDS) : 0 < DASHA_YEARS x := by
  fin_cases hx <;> decide

lemma seq_from_mod (i : ℕ) : _seq_from i DASHA_LORDS = _seq_from (i % 9) DASHA_LORDS := by
  unfold _seq_from
  refine List.map_congr_left fun j _ => ?_
  have h : (i % 9 + j) % DASHA_LORDS.length = (i + j) % DASHA_LORDS.length := by
    rw [DASHA_LORDS_length]; omega
  rw [h]
lemma wSumQ_nil : wSumQ [] = 0 := rfl

lemma wSumQ_cons (l : String) (ls : List String) :
    wSumQ (l :: ls) = (DASHA_YEARS l : ℚ) + wSumQ ls := by
  simp [wSumQ]

lemma wSumQ_nonneg (ls : List String) : 0 ≤ wSumQ ls := by
  refine List.sum_nonneg fun x hx => ?_
  simp only [List.mem_map] at hx
  obtain ⟨l, -, rfl⟩ := hx
  exact Nat.cast_nonneg _

lemma seq_from_wSumQ (i : ℕ) : wSumQ (_seq_from i DASHA_LORDS) = 120 := by
  rw [seq_from_mod]
  have h9 : i % 9 < 9 := Nat.mod_lt _ (by norm_num)
  set r := i % 9 with hr
  interval_cases r <;> norm_num [wSumQ, _seq_from, DASHA_LORDS, DASHA_YEARS, List.range_succ]

lemma subChildren_length (D : ℚ) (lvl : ℕ) (ls : List String) : ∀ cur : ℚ,
    (subChildren D lvl cur ls).length = ls.length := by
  induction ls with
  | nil => intro cur; rfl
  | cons l ls ih => intro cur; simp [subChildren, ih]

lemma subChildren_map_lord (D : ℚ) (lvl : ℕ) (ls : List String) : ∀ cur : ℚ,
    (subChildren D lvl cur ls).map Period.lord = ls := by
  induction ls with
  | nil => intro cur; rfl
  | cons l ls ih => intro cur; simp [subChildren, ih]

lemma subChildren_mem (D : ℚ) (lvl : ℕ) (ls : List String) : ∀ (cur : ℚ) (p : Period),
    p ∈ subChildren D lvl cur ls →
      p.stop = p.start + D * ((DASHA_YEARS p.lord : ℚ) / 120) ∧
      p.durationDays = D * ((DASHA_YEARS p.lord : ℚ) / 120) ∧
      p.yearsShare = (DASHA_YEARS p.lord : ℚ) ∧
      p.level = lvl ∧ p.active = none ∧ p.children = [] ∧ p.lord ∈ ls := by
  induction ls with
  | nil => intro cur p hp; simp [subChildren] at hp
  | cons l ls ih =>
    intro cur p hp
    rw [subChildren, List.mem_cons] at hp
    rcases hp with rfl | hp
    · exact ⟨rfl, rfl, rfl, rfl, rfl, rfl, List.mem_cons_self _ _⟩
    · obtain ⟨h1, h2, h3, h4, h5, h6, h7⟩ := ih _ p hp
      exact ⟨h1, h2, h3, h4, h5, h6, List.mem_cons_of_mem _ h7⟩

lemma subChildren_sum (D : ℚ) (lvl : ℕ) (ls : List String) : ∀ cur : ℚ,
    ((subChildren D lvl cur ls).map Period.durationDays).sum = D * (wSumQ ls / 120) := by
  induction ls with
  | nil => intro cur; simp [subChildren, wSumQ_nil]
  | cons l ls ih =>
    intro cur
    rw [subChildren, List.map_cons, List.sum_cons, ih, wSumQ_cons]
    ring

lemma subChildren_chain (D : ℚ) (lvl : ℕ) (ls : List String) : ∀ cur : ℚ,
    List.Chain' (fun a b => a.stop = b.start) (subChildren D lvl cur ls) := by
  induction ls with
  | nil => intro cur; simp [subChildren]
  | cons l ls ih =>
    intro cur
    refine List.chain'_cons'.mpr ⟨?_, ih _⟩
    intro b hb
    cases ls with
    | nil => simp [subChildren] at hb
    | cons l' ls' =>
      rw [subChildren] at hb
      simp only [List.head?_cons, Option.mem_def, Option.some.injEq] at hb
      rw [← hb]

lemma subChildren_bounds (D : ℚ) (hD : 0 ≤ D) (lvl : ℕ) (ls : List String) :
    ∀ (cur : ℚ) (p : Period), p ∈ subChildren D lvl cur ls →
      cur ≤ p.start ∧ p.stop ≤ cur + D * (wSumQ ls / 120) := by
  induction ls with
  | nil => intro cur p hp; simp [subChildren] at hp
  | cons l ls ih =>
    intro cur p hp
    have hw : (0 : ℚ) ≤ (DASHA_YEARS l : ℚ) := Nat.cast_nonneg _
    have hs : (0 : ℚ) ≤ wSumQ ls := wSumQ_nonneg ls
    have htail : (0 : ℚ) ≤ D * (wSumQ ls / 120) := by positivity
    have hsplit : D * (((DASHA_YEARS l : ℚ) + wSumQ ls) / 120) =
        D * ((DASHA_YEARS l : ℚ) / 120) + D * (wSumQ ls / 120) := by ring
    rw [subChildren, List.mem_cons] at hp
    rcases hp with rfl | hp
    · refine ⟨le_rfl, ?_⟩
      show cur + D * ((DASHA_YEARS l : ℚ) / 120) ≤ cur + D * (wSumQ (l :: ls) / 120)
      rw [wSumQ_cons, hsplit]
      linarith
    · obtain ⟨h1, h2⟩ := ih (cur + D * ((DASHA_YEARS l : ℚ) / 120)) p hp
      have hstep : (0 : ℚ) ≤ D * ((DASHA_YEARS l : ℚ) / 120) := by positivity
      refine ⟨by linarith, ?_⟩
      rw [wSumQ_cons, hsplit]
      linarith

lemma subChildren_sorted (D : ℚ) (hD : 0 ≤ D) (lvl : ℕ) (ls : List String) :
    ∀ cur : ℚ, List.Pairwise (fun a b => a.stop ≤ b.start) (subChildren D lvl cur ls) := by
  induction ls with
  | nil => intro cur; simp [subChildren]
  | cons l ls ih =>
    intro cur
    rw [subChildren]
    refine List.pairwise_cons.mpr ⟨?_, ih _⟩
    intro b hb
    exact (subChildren_bounds D hD lvl ls _ b hb).1

lemma subChildren_inverted (D : ℚ) (hD : D ≤ 0) (lvl : ℕ) (ls : List String)
    (cur : ℚ) (p : Period) (hp : p ∈ subChildren D lvl cur ls) : p.stop ≤ p.start := by
  have h := (subChildren_mem D lvl ls cur p hp).1
  have hw : (0 : ℚ) ≤ (DASHA_YEARS p.lord : ℚ) / 120 := by positivity
  nlinarith [mul_nonneg (neg_nonneg.mpr hD) hw]

lemma subChildren_nonneg (D : ℚ) (hD : 0 ≤ D) (lvl : ℕ) (ls : List String)
    (cur : ℚ) (p : Period) (hp : p ∈ subChildren D lvl cur ls) : p.start ≤ p.stop := by
  have h := (subChildren_mem D lvl ls cur p hp).1
  have hw : (0 : ℚ) ≤ (DASHA_YEARS p.lord : ℚ) / 120 := by positivity
  nlinarith [mul_nonneg hD hw]

/-! Facts about `_subdivide`. -/

lemma subdivide_length (s e : ℚ) (L : String) (lvl : ℕ) :
    (_subdivide s e L lvl).length = 9 := by
  rw [_subdivide, subChildren_length, seq_from_length]

lemma subdivide_lords (s e : ℚ) (L : String) (lvl : ℕ) :
    (_subdivide s e L lvl).map Period.lord = _seq_from (DASHA_LORDS.indexOf L) DASHA_LORDS := by
  rw [_subdivide, subChildren_map_lord]

lemma subdivide_mem {s e : ℚ} {L : String} {lvl : ℕ} {p : Period}
    (hp : p ∈ _subdivide s e L lvl) :
    p.stop = p.start + (e - s) * ((DASHA_YEARS p.lord : ℚ) / 120) ∧
    p.durationDays = (e - s) * ((DASHA_YEARS p.lord : ℚ) / 120) ∧
    p.yearsShare = (DASHA_YEARS p.lord : ℚ) ∧
    p.level = lvl ∧ p.active = none ∧ p.children = [] ∧ p.lord ∈ DASHA_LORDS := by
  rw [_subdivide] at hp
  obtain ⟨h1, h2, h3, h4, h5, h6, h7⟩ := subChildren_mem _ _ _ _ _ hp
  exact ⟨h1, h2, h3, h4, h5, h6, seq_from_mem h7⟩

lemma subdivide_sum (s e : ℚ) (L : String) (lvl : ℕ) :
    ((_subdivide s e L lvl).map Period.durationDays).sum = e - s := by
  rw [_subdivide, subChildren_sum, seq_from_wSumQ]
  norm_num

lemma subdivide_bounds {s e : ℚ} (h : s ≤ e) (L : String) (lvl : ℕ)
    {p : Period} (hp : p ∈ _subdivide s e L lvl) : s ≤ p.start ∧ p.stop ≤ e := by
  rw [_subdivide] at hp
  obtain ⟨h1, h2⟩ := subChildren_bounds (e - s) (by linarith) lvl _ s p hp
  rw [seq_from_wSumQ] at h2
  refine ⟨h1, ?_⟩
  have : s + (e - s) * ((120 : ℚ) / 120) = e := by ring
  linarith [h2, this.le, this.ge]

lemma subdivide_sorted {s e : ℚ} (h : s ≤ e) (L : String) (lvl : ℕ) :
    List.Pairwise (fun a b => a.stop ≤ b.start) (_subdivide s e L lvl) := by
  rw [_subdivide]
  exact subChildren_sorted (e - s) (by linarith) lvl _ s

lemma subdivide_inverted {s e : ℚ} (h : e ≤ s) (L : String) (lvl : ℕ)
    {p : Period} (hp : p ∈ _subdivide s e L lvl) : p.stop ≤ p.start := by
  rw [_subdivide] at hp
  exact subChildren_inverted (e - s) (by linarith) lvl _ s p hp

lemma subdivide_nonneg {s e : ℚ} (h : s ≤ e) (L : String) (lvl : ℕ)
    {p : Period} (hp : p ∈ _subdivide s e L lvl) : p.start ≤ p.stop := by
  rw [_subdivide] at hp
  exact subChildren_nonneg (e - s) (by linarith) lvl _ s p hp

lemma subdivide_chain (s e : ℚ) (L : String) (lvl : ℕ) :
    List.Chain' (fun a b => a.stop = b.start) (_subdivide s e L lvl) := by
  rw [_subdivide]
  exact subChildren_chain _ _ _ s

lemma subdivide_head (s e : ℚ) (L : String) (lvl : ℕ) :
    (_subdivide s e L lvl).head?.map Period.start = some s := by
  have h9 := seq_from_length (DASHA_LORDS.indexOf L)
  rw [_subdivide]
  rcases hls : _seq_from (DASHA_LORDS.indexOf L) DASHA_LORDS with _ | ⟨a, rest⟩
  · rw [hls] at h9; simp at h9
  · rfl

/-- Claim C3: for every parent interval and parent lord, `_subdivide` produces
exactly 9 children, each child's duration is `D * yearWeight(childLord) / 120`
(ending where it starts plus its duration), the children are laid out
contiguously from the parent start, and their durations sum exactly (hence
within 1e-6 relative tolerance) to the parent duration `D`. -/
theorem claim_C3 (parent_start parent_end : ℚ) (parent_lord : String) (level : ℕ) :
    (_subdivide parent_start parent_end parent_lord level).length = 9 ∧
    (_subdivide parent_start parent_end parent_lord level).head?.map Period.start =
      some parent_start ∧
    List.Chain' (fun a b => a.stop = b.start)
      (_subdivide parent_start parent_end parent_lord level) ∧
    (∀ p ∈ _subdivide parent_start parent_end parent_lord level,
      p.durationDays = (parent_end - parent_start) * ((DASHA_YEARS p.lord : ℚ) / 120) ∧
      p.stop = p.start + p.durationDays) ∧
    ((_subdivide parent_start parent_end parent_lord level).map Period.durationDays).sum =
      parent_end - parent_start := by
  refine ⟨subdivide_length _ _ _ _, subdivide_head _ _ _ _, subdivide_chain _ _ _ _,
    fun p hp => ?_, subdivide_sum _ _ _ _⟩
  obtain ⟨h1, h2, -⟩ := subdivide_mem hp
  exact ⟨h2, by rw [h1, h2]⟩

/-- Witness for claim C3's inner quantifiers at a concrete instance: the Sun
antardasha subdivision of the interval `[0, 120)`. -/
theorem claim_C3_witness :
    ((_subdivide 0 120 "Sun" 2).map Period.durationDays).sum = 120 - 0 ∧
    (_subdivide 0 120 "Sun" 2).length = 9 := by
  have h := claim_C3 0 120 "Sun" 2
  exact ⟨h.2.2.2.2, h.1⟩
/-! Window and overlap helper facts. -/

lemma overlaps_iff {a b ws we : ℚ} : _overlaps a b ws we = true ↔ ws < b ∧ a < we := by
  simp only [_overlaps, Bool.not_eq_true', Bool.or_eq_false_iff, decide_eq_false_iff_not,
    not_le, ge_iff_le]

lemma overlaps_false_iff {a b ws we : ℚ} : _overlaps a b ws we = false ↔ b ≤ ws ∨ we ≤ a := by
  simp only [_overlaps, Bool.not_eq_false', Bool.or_eq_true, decide_eq_true_eq, ge_iff_le]

lemma trim_fst (s e ws we : ℚ) : (_trim_to_window s e ws we).1 = max s ws := by
  show (if s ≥ ws then s else ws) = max s ws
  by_cases hc : ws ≤ s
  · rw [if_pos hc, max_eq_left hc]
  · rw [if_neg hc, max_eq_right (le_of_not_le hc)]

lemma trim_snd (s e ws we : ℚ) : (_trim_to_window s e ws we).2 = min e we := by
  show (if e ≤ we then e else we) = min e we
  by_cases hc : e ≤ we
  · rw [if_pos hc, min_eq_left hc]
  · rw [if_neg hc, min_eq_right (le_of_not_le hc)]

lemma pyMod_nonneg {x m : ℚ} (hm : 0 < m) : 0 ≤ pyMod x m := by
  rw [pyMod]
  have h1 : (⌊x / m⌋ : ℚ) ≤ x / m := Int.floor_le _
  have h2 : m * (⌊x / m⌋ : ℚ) ≤ m * (x / m) := by
    exact mul_le_mul_of_nonneg_left h1 hm.le
  have h3 : m * (x / m) = x := by field_simp
  linarith

lemma pyMod_lt {x m : ℚ} (hm : 0 < m) : pyMod x m < m := by
  rw [pyMod]
  have h1 : x / m < (⌊x / m⌋ : ℚ) + 1 := Int.lt_floor_add_one _
  have h2 : m * (x / m) < m * ((⌊x / m⌋ : ℚ) + 1) := by
    exact mul_lt_mul_of_pos_left h1 hm
  have h3 : m * (x / m) = x := by field_simp
  nlinarith

lemma nak_frac_bounds (lon : ℚ) :
    0 ≤ (_nakshatra_index_and_fraction lon).2 ∧ (_nakshatra_index_and_fraction lon).2 < 1 := by
  have hspan : (0 : ℚ) < NAKSHATRA_SPAN_DEG := by norm_num [NAKSHATRA_SPAN_DEG]
  have hx : 0 ≤ pyMod lon 360 := pyMod_nonneg (by norm_num)
  rw [_nakshatra_index_and_fraction]
  set x := pyMod lon 360 with hxdef
  have hq : (0 : ℚ) ≤ x / NAKSHATRA_SPAN_DEG := by positivity
  have hfl : (0 : ℤ) ≤ ⌊x / NAKSHATRA_SPAN_DEG⌋ := Int.floor_nonneg.mpr hq
  have hcast : ((⌊x / NAKSHATRA_SPAN_DEG⌋.toNat : ℕ) : ℚ) = (⌊x / NAKSHATRA_SPAN_DEG⌋ : ℚ) := by
    exact_mod_cast congrArg Int.cast (Int.toNat_of_nonneg hfl)
  simp only [hcast]
  have hrw : (x - (⌊x / NAKSHATRA_SPAN_DEG⌋ : ℚ) * NAKSHATRA_SPAN_DEG) / NAKSHATRA_SPAN_DEG =
      x / NAKSHATRA_SPAN_DEG - (⌊x / NAKSHATRA_SPAN_DEG⌋ : ℚ) := by
    field_simp
    ring
  rw [hrw]
  constructor
  · have := Int.floor_le (x / NAKSHATRA_SPAN_DEG)
    linarith
  · have := Int.lt_floor_add_one (x / NAKSHATRA_SPAN_DEG)
    linarith

lemma start_lord_mem (lon : ℚ) : start_lord_of lon ∈ DASHA_LORDS := by
  rw [start_lord_of]
  have hlt : (_nakshatra_index_and_fraction lon).1 % 9 < DASHA_LORDS.length := by
    rw [DASHA_LORDS_length]; exact Nat.mod_lt _ (by norm_num)
  rw [List.getD_eq_get _ _ hlt]
  exact List.get_mem _ _ _

lemma start_lord_years_pos (lon : ℚ) : (0 : ℚ) < (DASHA_YEARS (start_lord_of lon) : ℚ) := by
  exact_mod_cast DASHA_YEARS_pos (start_lord_mem lon)

lemma balance_days_pos (lon : ℚ) : 0 < balance_days_of lon := by
  rw [balance_days_of]
  obtain ⟨h0, h1⟩ := nak_frac_bounds lon
  have hy := start_lord_years_pos lon
  have hd : (0 : ℚ) < DAYS_PER_YEAR := by norm_num [DAYS_PER_YEAR]
  have hf : 0 < 1 - (_nakshatra_index_and_fraction lon).2 := by linarith
  positivity

/-- Claim C10: when the reporting window ends at or before birth, the returned
timeline is empty — the forward sweep starts at birth and never emits a period
before birth, even when the window covers pre-birth time. -/
theorem claim_C10 (birth_utc moon_longitude_sidereal : ℚ) (depth : ℤ)
    (from_date at_date : Option ℚ) (to_date : ℚ) (h : to_date ≤ birth_utc) :
    (calculate_vimshottari_timeline birth_utc moon_longitude_sidereal depth
        from_date (some to_date) at_date).1 = [] := by
  have hfe : birth_utc < first_end_of birth_utc moon_longitude_sidereal := by
    rw [first_end_of]
    linarith [balance_days_pos moon_longitude_sidereal]
  have hwe : window_end_of birth_utc (some to_date) = to_date := rfl
  have hov : _overlaps birth_utc (first_end_of birth_utc moon_longitude_sidereal)
      (window_start_of birth_utc from_date) (window_end_of birth_utc (some to_date)) = false := by
    rw [overlaps_false_iff, hwe]
    right; exact h
  rw [calculate_vimshottari_timeline]
  simp only [hov, Bool.false_eq_true, if_false, List.nil_append]
  rw [mahaLoop]
  rw [if_neg]
  rw [hwe]
  intro hcon
  linarith
/-- Witness for claim C10 at a concrete input: birth at epoch 0, Moon at 0°,
window ending one day before birth. -/
theorem claim_C10_witness :
    ((-1 : ℚ) ≤ 0) ∧
    (calculate_vimshottari_timeline 0 0 3 none (some (-1)) none).1 = [] :=
  ⟨by norm_num, claim_C10 0 0 3 none none (-1) (by norm_num)⟩

/-- Claim C7: `compute_sripati_cusps` at the symmetric cardinal angles ASC=0°,
IC=90°, DSC=180°, MC=270° returns exactly the 12 Bhava Sandhis
[15°, 45°, …, 345°], each the circular midpoint of two consecutive Madhyas
obtained by trisecting the quadrants, the 12th wrapping back to Madhya 1. -/
theorem claim_C7 :
    compute_sripati_cusps 0 90 180 270 =
      [15, 45, 75, 105, 135, 165, 195, 225, 255, 285, 315, 345] := by
  norm_num [compute_sripati_cusps, quadrant_madhyas, norm360, pyMod, List.range_succ]

/-- Claim C6 (code bug): for the ascending-cyclic cusp set
`[350, 20, 50, 80, 110, 140, 170, 200, 230, 260, 290, 320]`, whose first
segment wraps past 0°, the inline house scan of `chart_calc.py` places a planet
at 355° in house 12 — the planet falls through every `cusp ≤ x < next` test and
is captured by the last segment's extended bound `[320, 710)` — whereas the
spec's ExplicitCusps bucketing places it in house 1 (segment `[350, 380 ≡ 20)`). -/
theorem claim_C6 :
    house_scan [350, 20, 50, 80, 110, 140, 170, 200, 230, 260, 290, 320] 355 = 12 ∧
    spec_house_from_cusps [350, 20, 50, 80, 110, 140, 170, 200, 230, 260, 290, 320] 355 = 1 := by
  constructor
  · norm_num [house_scan, List.range_succ, List.find?]
  · norm_num [spec_house_from_cusps, spec_in_arc, List.range_succ, List.find?]

set_option maxHeartbeats 1000000 in
/-- Claim C2: birth 2000-01-01T12:00:00Z (epoch 0 of the embedding), Moon
sidereal longitude 0.2 × 13°20′ = 8/3 ≈ 2.6667°: the first Mahadasha has lord
Ketu, starts at birth, and spans 0.8 × 7 = 5.6 years of 365.25 days
(5.6 × 365.25 = 2045.4 days); its first listed Antardasha is Venus, not Ketu,
the Ketu sub-segment lying wholly before birth and being dropped by the overlap
filter (shown directly: the canonical Ketu Antardasha of the full Mahadasha
interval ends at −362.20625 ≤ birth). -/
theorem claim_C2 :
    ((calculate_vimshottari_timeline 0 (8/3) 2 none none none).1.head?.map
        (fun p => (p.lord, p.start, p.durationDays, p.children.head?.map Period.lord)))
      = some ("Ketu", 0, (28/5) * DAYS_PER_YEAR, some "Venus") ∧
    ((_subdivide (maha_start_full_of 0 (8/3)) (maha_end_full_of 0 (8/3)) "Ketu" 2).head?.map
        (fun p => (p.lord, decide (p.stop ≤ 0)))) = some ("Ketu", true) := by
  constructor
  · rw [calculate_vimshottari_timeline]
    have hc : _overlaps 0 (first_end_of 0 (8/3)) (window_start_of 0 none)
        (window_end_of 0 none) = true := by
      norm_num [overlaps_iff, first_end_of, balance_days_of, start_lord_of,
        _nakshatra_index_and_fraction, pyMod, NAKSHATRA_SPAN_DEG, DAYS_PER_YEAR,
        DASHA_LORDS, DASHA_YEARS, window_start_of, window_end_of]
    rw [hc]
    simp only [if_true, List.singleton_append, List.head?_cons, Option.map_some']
    norm_num [clamp_depth, window_start_of, window_end_of,
      start_lord_of, first_end_of, balance_days_of, maha_start_full_of, maha_end_full_of,
      _nakshatra_index_and_fraction, pyMod, NAKSHATRA_SPAN_DEG, DAYS_PER_YEAR,
      DASHA_LORDS, DASHA_YEARS, _overlaps, _trim_to_window,
      _build_children_with_full_parent, _subdivide, subChildren, _seq_from,
      List.range_succ]
  · norm_num [maha_start_full_of, maha_end_full_of, start_lord_of,
      _nakshatra_index_and_fraction, pyMod, NAKSHATRA_SPAN_DEG, DAYS_PER_YEAR,
      DASHA_LORDS, DASHA_YEARS, _subdivide, subChildren, _seq_from, List.range_succ]
lemma anchor_agree (b : ℕ) :
    _navamsha_start_sign_index_for_element b = spec_navamsha_anchor b := by
  rw [_navamsha_start_sign_index_for_element, spec_navamsha_anchor]
  have hf : (FIRE_SIGNS.contains b = true) ↔ (b = 0 ∨ b = 4 ∨ b = 8) := by
    simp [FIRE_SIGNS]
  have he : (EARTH_SIGNS.contains b = true) ↔ (b = 1 ∨ b = 5 ∨ b = 9) := by
    simp [EARTH_SIGNS]
  have ha : (AIR_SIGNS.contains b = true) ↔ (b = 2 ∨ b = 6 ∨ b = 10) := by
    simp [AIR_SIGNS]
  simp only [hf, he, ha]

/-- Claim C8: for every longitude the navamsha sign index equals
`(anchor + ordinal − 1) mod 12`, the anchor being chosen by the base sign's
element (fire → Aries 0, earth → Capricorn 9, air → Libra 6, water → Cancer 3);
in particular `get_navamsha_info 0` is Aries (index 0), ordinal 1, residual 0,
and `get_navamsha_info 30` is Capricorn (index 9), ordinal 1. -/
theorem claim_C8 :
    (∀ lon : ℚ,
      (get_navamsha_info lon).signIndex =
        (spec_navamsha_anchor ((⌊pyMod lon 360 / 30⌋).toNat) +
          ((get_navamsha_info lon).ordinal - 1)) % 12) ∧
    get_navamsha_info 0 =
      { signIndex := 0, sign := "Aries", ordinal := 1, degreeInNavamsha := 0 } ∧
    (get_navamsha_info 30).signIndex = 9 ∧ (get_navamsha_info 30).ordinal = 1 := by
  refine ⟨fun lon => ?_, ?_, ?_, ?_⟩
  · simp only [get_navamsha_info, anchor_agree]
  · norm_num [get_navamsha_info, pyMod, _navamsha_start_sign_index_for_element,
      FIRE_SIGNS, EARTH_SIGNS, AIR_SIGNS, ZODIAC_SIGNS]
  · norm_num [get_navamsha_info, pyMod, _navamsha_start_sign_index_for_element,
      FIRE_SIGNS, EARTH_SIGNS, AIR_SIGNS]
  · norm_num [get_navamsha_info, pyMod]
lemma TreeInv.active_eq {a? : Option ℚ} {p : Period} (h : TreeInv a? p) :
    p.active = a?.map (fun t => decide (p.start ≤ t ∧ t < p.stop)) := by
  cases h; assumption

lemma TreeInv.children_sorted {a? : Option ℚ} {p : Period} (h : TreeInv a? p) :
    List.Pairwise (fun a b => a.stop ≤ b.start) p.children := by
  cases h; assumption

lemma TreeInv.children_sub {a? : Option ℚ} {p : Period} (h : TreeInv a? p) :
    ∀ c ∈ p.children, p.start ≤ c.start ∧ c.stop ≤ p.stop := by
  cases h; assumption

lemma TreeInv.lord_mem {a? : Option ℚ} {p : Period} (h : TreeInv a? p) :
    p.lord ∈ DASHA_LORDS := by
  cases h; assumption

lemma TreeInv.block {a? : Option ℚ} {p : Period} (h : TreeInv a? p) :
    IsBlockOf (p.children.map Period.lord) (spec_rotation p.lord) := by
  cases h; assumption

lemma TreeInv.rec_children {a? : Option ℚ} {p : Period} (h : TreeInv a? p) :
    ∀ c ∈ p.children, TreeInv a? c := by
  cases h; assumption

lemma block_refl (xs : List String) : IsBlockOf xs xs := ⟨[], [], by simp⟩

lemma block_nil (ys : List String) : IsBlockOf [] ys := ⟨[], ys, by simp⟩

lemma lords_getD_mem (i : ℕ) : DASHA_LORDS.getD (i % 9) "" ∈ DASHA_LORDS := by
  have hlt : i % 9 < DASHA_LORDS.length := by
    rw [DASHA_LORDS_length]; exact Nat.mod_lt _ (by norm_num)
  rw [List.getD_eq_get _ _ hlt]
  exact List.get_mem _ _ _

lemma seq_from_indexOf_eq_rotation {L : String} (hL : L ∈ DASHA_LORDS) :
    _seq_from (DASHA_LORDS.indexOf L) DASHA_LORDS = spec_rotation L := by
  fin_cases hL <;> decide

lemma pairwise_start_mono {l : List Period}
    (hs : List.Pairwise (fun a b => a.stop ≤ b.start) l)
    (hn : ∀ p ∈ l, p.start ≤ p.stop) :
    List.Pairwise (fun a b => a.start ≤ b.start) l := by
  refine hs.imp_of_mem fun {a b} ha hb hab => ?_
  exact le_trans (hn a ha) hab

lemma pairwise_stop_mono {l : List Period}
    (hs : List.Pairwise (fun a b => a.stop ≤ b.start) l)
    (hn : ∀ p ∈ l, p.start ≤ p.stop) :
    List.Pairwise (fun a b => a.stop ≤ b.stop) l := by
  refine hs.imp_of_mem fun {a b} ha hb hab => ?_
  exact le_trans hab (hn b hb)
lemma filter_false_of_all {α} (p : α → Bool) (l : List α)
    (h : ∀ x ∈ l, p x = false) : l.filter p = [] := by
  induction l with
  | nil => rfl
  | cons a t ih =>
    rw [List.filter_cons_of_neg]
    · exact ih fun x hx => h x (List.mem_cons_of_mem _ hx)
    · simp [h a (List.mem_cons_self _ _)]

lemma filter_front (vs ve : ℚ) (l : List Period)
    (hstart : List.Pairwise (fun a b => a.start ≤ b.start) l)
    (hall : ∀ x ∈ l, vs < x.stop) :
    ∃ post, l = (l.filter (fun c => _overlaps c.start c.stop vs ve)) ++ post := by
  induction l with
  | nil => exact ⟨[], rfl⟩
  | cons x t ih =>
    obtain ⟨hx1, hx2⟩ := List.pairwise_cons.mp hstart
    by_cases hxov : _overlaps x.start x.stop vs ve = true
    · obtain ⟨post, hpost⟩ := ih hx2 fun y hy => hall y (List.mem_cons_of_mem _ hy)
      refine ⟨post, ?_⟩
      rw [List.filter_cons_of_pos (by simp [hxov]), List.cons_append]
      exact congrArg (x :: ·) hpost
    · have hxf : _overlaps x.start x.stop vs ve = false := by
        cases hb : _overlaps x.start x.stop vs ve
        · rfl
        · exact absurd hb hxov
      have hxs : ve ≤ x.start := by
        rcases overlaps_false_iff.mp hxf with h | h
        · exact absurd (hall x (List.mem_cons_self _ _)) (not_lt.mpr h)
        · exact h
      refine ⟨x :: t, ?_⟩
      rw [filter_false_of_all, List.nil_append]
      intro y hy
      rcases List.mem_cons.mp hy with rfl | hy
      · exact hxf
      · rw [overlaps_false_iff]
        right
        exact le_trans hxs (hx1 y hy)

lemma filter_middle (vs ve : ℚ) (l : List Period)
    (hstart : List.Pairwise (fun a b => a.start ≤ b.start) l)
    (hstop : List.Pairwise (fun a b => a.stop ≤ b.stop) l) :
    ∃ pre post,
      l = pre ++ (l.filter (fun c => _overlaps c.start c.stop vs ve)) ++ post := by
  induction l with
  | nil => exact ⟨[], [], rfl⟩
  | cons c t ih =>
    obtain ⟨hstart1, hstart2⟩ := List.pairwise_cons.mp hstart
    obtain ⟨hstop1, hstop2⟩ := List.pairwise_cons.mp hstop
    by_cases hkeep : vs < c.stop
    · have hall : ∀ x ∈ c :: t, vs < x.stop := by
        intro x hx
        rcases List.mem_cons.mp hx with rfl | hx
        · exact hkeep
        · exact lt_of_lt_of_le hkeep (hstop1 x hx)
      obtain ⟨post, hpost⟩ := filter_front vs ve (c :: t) hstart hall
      exact ⟨[], post, by simpa using hpost⟩
    · have hcf : _overlaps c.start c.stop vs ve = false :=
        overlaps_false_iff.mpr (Or.inl (le_of_not_lt hkeep))
      obtain ⟨pre, post, hdecomp⟩ := ih hstart2 hstop2
      refine ⟨c :: pre, post, ?_⟩
      rw [List.filter_cons_of_neg (by simp [hcf])]
      rw [List.cons_append, List.cons_append]
      exact congrArg (c :: ·) hdecomp

lemma filterMap_ite {α β} (f : α → β) (p : α → Bool) (l : List α) :
    (l.filterMap (fun a => if p a = true then some (f a) else none)) =
      (l.filter p).map f := by
  induction l with
  | nil => rfl
  | cons a t ih =>
    by_cases h : p a = true
    · rw [List.filterMap_cons, List.filter_cons_of_pos (by simp [h])]
      simp [h, ih]
    · rw [List.filterMap_cons, List.filter_cons_of_neg (by simp [h])]
      simp [h, ih]
lemma build_children_eq (L : String) (fs fe vs ve : ℚ) (depth : ℤ) (at_dt : Option ℚ) :
    _build_children_with_full_parent L fs fe vs ve depth at_dt =
      if depth < 2 then []
      else
        ((_subdivide fs fe L 2).filter (fun c => _overlaps c.start c.stop vs ve)).map
          (fun c_full =>
            { lord := c_full.lord, level := 2,
              start := max c_full.start vs, stop := min c_full.stop ve,
              durationDays := min c_full.stop ve - max c_full.start vs,
              yearsShare := (DASHA_YEARS c_full.lord : ℚ),
              active := at_dt.map
                (fun t => decide (max c_full.start vs ≤ t ∧ t < min c_full.stop ve)),
              children :=
                if depth ≥ 3 then
                  ((_subdivide c_full.start c_full.stop c_full.lord 3).filter
                      (fun cc => _overlaps cc.start cc.stop vs ve)).map
                    (fun cc_full =>
                      { lord := cc_full.lord, level := 3,
                        start := max cc_full.start vs, stop := min cc_full.stop ve,
                        durationDays := min cc_full.stop ve - max cc_full.start vs,
                        yearsShare := (DASHA_YEARS cc_full.lord : ℚ),
                        active := at_dt.map
                          (fun t => decide (max cc_full.start vs ≤ t ∧ t < min cc_full.stop ve)),
                        children := [] })
                else [] }) := by
  rw [_build_children_with_full_parent]
  by_cases h2 : depth < 2
  · simp [h2]
  · simp only [if_neg h2, trim_fst, trim_snd, filterMap_ite]
lemma trimmed_map_sorted {l : List Period} {vs ve : ℚ} {g : Period → Period}
    (hg : ∀ c, (g c).start = max c.start vs ∧ (g c).stop = min c.stop ve)
    (hs : List.Pairwise (fun a b => a.stop ≤ b.start) l) :
    List.Pairwise (fun a b => a.stop ≤ b.start)
      ((l.filter (fun c => _overlaps c.start c.stop vs ve)).map g) := by
  rw [List.pairwise_map]
  refine (hs.filter _).imp ?_
  intro a b hab
  rw [(hg a).2, (hg b).1]
  exact le_trans (min_le_left _ _) (le_trans hab (le_max_left _ _))

lemma trimmed_map_mem {l : List Period} {vs ve lo hi : ℚ} {g : Period → Period}
    (hg : ∀ c, (g c).start = max c.start vs ∧ (g c).stop = min c.stop ve)
    (hb : ∀ c ∈ l, lo ≤ c.start ∧ c.stop ≤ hi) :
    ∀ x ∈ (l.filter (fun c => _overlaps c.start c.stop vs ve)).map g,
      max lo vs ≤ x.start ∧ x.stop ≤ min hi ve := by
  intro x hx
  rw [List.mem_map] at hx
  obtain ⟨c, hc, rfl⟩ := hx
  have hcl := hb c (List.mem_of_mem_filter hc)
  rw [(hg c).1, (hg c).2]
  exact ⟨max_le_max hcl.1 le_rfl, min_le_min hcl.2 le_rfl⟩

lemma trimmed_map_block {l : List Period} {vs ve : ℚ} {g : Period → Period} {rot : List String}
    (hg : ∀ c, (g c).lord = c.lord)
    (hstart : List.Pairwise (fun a b => a.start ≤ b.start) l)
    (hstop : List.Pairwise (fun a b => a.stop ≤ b.stop) l)
    (hrot : l.map Period.lord = rot) :
    IsBlockOf
      (((l.filter (fun c => _overlaps c.start c.stop vs ve)).map g).map Period.lord) rot := by
  obtain ⟨pre, post, hdecomp⟩ := filter_middle vs ve l hstart hstop
  have hmid : ((l.filter (fun c => _overlaps c.start c.stop vs ve)).map g).map Period.lord
      = (l.filter (fun c => _overlaps c.start c.stop vs ve)).map Period.lord := by
    rw [List.map_map]
    exact List.map_congr_left fun c _ => hg c
  refine ⟨pre.map Period.lord, post.map Period.lord, ?_⟩
  rw [hmid, ← hrot]
  conv_lhs => rw [hdecomp]
  rw [List.map_append, List.map_append]

lemma treeInv_leaf {a? : Option ℚ} {p : Period}
    (hactive : p.active = a?.map (fun t => decide (p.start ≤ t ∧ t < p.stop)))
    (hlord : p.lord ∈ DASHA_LORDS) (hch : p.children = []) : TreeInv a? p := by
  refine TreeInv.mk p hactive ?_ ?_ hlord ?_ ?_
  · rw [hch]; exact List.Pairwise.nil
  · rw [hch]; intro c hc; exact absurd hc (List.not_mem_nil c)
  · rw [hch]; exact block_nil _
  · rw [hch]; intro c hc; exact absurd hc (List.not_mem_nil c)
lemma build_children_props (depth : ℤ) (at_dt : Option ℚ) (fs fe vs ve : ℚ) (hff : fs ≤ fe)
    (L : String) (hL : L ∈ DASHA_LORDS) :
    List.Pairwise (fun a b => a.stop ≤ b.start)
      (_build_children_with_full_parent L fs fe vs ve depth at_dt) ∧
    (∀ c ∈ _build_children_with_full_parent L fs fe vs ve depth at_dt,
      max fs vs ≤ c.start ∧ c.stop ≤ min fe ve) ∧
    (∀ c ∈ _build_children_with_full_parent L fs fe vs ve depth at_dt, TreeInv at_dt c) ∧
    IsBlockOf ((_build_children_with_full_parent L fs fe vs ve depth at_dt).map Period.lord)
      (spec_rotation L) := by
  rw [build_children_eq]
  by_cases h2 : depth < 2
  · rw [if_pos h2]
    exact ⟨List.Pairwise.nil, fun c hc => absurd hc (List.not_mem_nil c),
      fun c hc => absurd hc (List.not_mem_nil c), block_nil _⟩
  · rw [if_neg h2]
    have hs2 := subdivide_sorted hff L 2
    have hn2 : ∀ p ∈ _subdivide fs fe L 2, p.start ≤ p.stop := fun p hp =>
      subdivide_nonneg hff L 2 hp
    have hstart2 := pairwise_start_mono hs2 hn2
    have hstop2 := pairwise_stop_mono hs2 hn2
    have hb2 : ∀ p ∈ _subdivide fs fe L 2, fs ≤ p.start ∧ p.stop ≤ fe := fun p hp =>
      subdivide_bounds hff L 2 hp
    have hrot2 : (_subdivide fs fe L 2).map Period.lord = spec_rotation L := by
      rw [subdivide_lords, seq_from_indexOf_eq_rotation hL]
    refine ⟨trimmed_map_sorted (fun c => ⟨rfl, rfl⟩) hs2,
      trimmed_map_mem (fun c => ⟨rfl, rfl⟩) hb2, ?_,
      trimmed_map_block (fun c => rfl) hstart2 hstop2 hrot2⟩
    intro x hx
    rw [List.mem_map] at hx
    obtain ⟨c, hcf, rfl⟩ := hx
    have hc2 : c ∈ _subdivide fs fe L 2 := List.mem_of_mem_filter hcf
    have hcl : c.lord ∈ DASHA_LORDS := (subdivide_mem hc2).2.2.2.2.2.2
    have hcn : c.start ≤ c.stop := hn2 c hc2
    have hs3 := subdivide_sorted hcn c.lord 3
    have hn3 : ∀ p ∈ _subdivide c.start c.stop c.lord 3, p.start ≤ p.stop := fun p hp =>
      subdivide_nonneg hcn c.lord 3 hp
    have hb3 : ∀ p ∈ _subdivide c.start c.stop c.lord 3, c.start ≤ p.start ∧ p.stop ≤ c.stop :=
      fun p hp => subdivide_bounds hcn c.lord 3 hp
    have hrot3 : (_subdivide c.start c.stop c.lord 3).map Period.lord = spec_rotation c.lord := by
      rw [subdivide_lords, seq_from_indexOf_eq_rotation hcl]
    refine TreeInv.mk _ rfl ?_ ?_ hcl ?_ ?_
    · show List.Pairwise _ (if depth ≥ 3 then _ else [])
      by_cases h3 : depth ≥ 3
      · rw [if_pos h3]
        exact trimmed_map_sorted (fun c => ⟨rfl, rfl⟩) hs3
      · rw [if_neg h3]; exact List.Pairwise.nil
    · show ∀ k ∈ (if depth ≥ 3 then _ else []), _
      by_cases h3 : depth ≥ 3
      · rw [if_pos h3]
        intro k hk
        exact trimmed_map_mem (fun c => ⟨rfl, rfl⟩) hb3 k hk
      · rw [if_neg h3]; intro k hk; exact absurd hk (List.not_mem_nil k)
    · show IsBlockOf ((if depth ≥ 3 then _ else []).map Period.lord) _
      by_cases h3 : depth ≥ 3
      · rw [if_pos h3]
        exact trimmed_map_block (fun c => rfl) (pairwise_start_mono hs3 hn3)
          (pairwise_stop_mono hs3 hn3) hrot3
      · rw [if_neg h3]; exact block_nil _
    · show ∀ k ∈ (if depth ≥ 3 then _ else []), TreeInv at_dt k
      by_cases h3 : depth ≥ 3
      · rw [if_pos h3]
        intro k hk
        rw [List.mem_map] at hk
        obtain ⟨cc, hccf, rfl⟩ := hk
        have hcc3 : cc ∈ _subdivide c.start c.stop c.lord 3 := List.mem_of_mem_filter hccf
        exact treeInv_leaf rfl (subdivide_mem hcc3).2.2.2.2.2.2 rfl
      · rw [if_neg h3]; intro k hk; exact absurd hk (List.not_mem_nil k)
lemma attach_children_eq (depth : ℤ) (at_dt : Option ℚ) (s e : ℚ) (L : String) :
    attach_children depth at_dt s e L =
      if depth ≥ 2 then
        (_subdivide s e L 2).map (fun c =>
          { lord := c.lord, level := c.level, start := c.start, stop := c.stop,
            durationDays := c.durationDays, yearsShare := c.yearsShare,
            active := at_dt.map (fun t => decide (c.start ≤ t ∧ t < c.stop)),
            children :=
              if depth ≥ 3 then
                (_subdivide c.start c.stop c.lord 3).map (fun cc =>
                  { lord := cc.lord, level := cc.level, start := cc.start, stop := cc.stop,
                    durationDays := cc.durationDays, yearsShare := cc.yearsShare,
                    active := at_dt.map (fun t => decide (cc.start ≤ t ∧ t < cc.stop)),
                    children := cc.children })
              else [] })
      else [] := rfl

lemma attach_children_props (depth : ℤ) (at_dt : Option ℚ) (s e : ℚ) (hse : s ≤ e)
    (L : String) (hL : L ∈ DASHA_LORDS) :
    List.Pairwise (fun a b => a.stop ≤ b.start) (attach_children depth at_dt s e L) ∧
    (∀ c ∈ attach_children depth at_dt s e L, s ≤ c.start ∧ c.stop ≤ e) ∧
    (∀ c ∈ attach_children depth at_dt s e L, TreeInv at_dt c) ∧
    IsBlockOf ((attach_children depth at_dt s e L).map Period.lord) (spec_rotation L) := by
  rw [attach_children_eq]
  by_cases h2 : depth ≥ 2
  case neg =>
    rw [if_neg h2]
    exact ⟨List.Pairwise.nil, fun c hc => absurd hc (List.not_mem_nil c),
      fun c hc => absurd hc (List.not_mem_nil c), block_nil _⟩
  case pos =>
    rw [if_pos h2]
    have hs2 := subdivide_sorted hse L 2
    have hn2 : ∀ p ∈ _subdivide s e L 2, p.start ≤ p.stop := fun p hp =>
      subdivide_nonneg hse L 2 hp
    have hb2 : ∀ p ∈ _subdivide s e L 2, s ≤ p.start ∧ p.stop ≤ e := fun p hp =>
      subdivide_bounds hse L 2 hp
    have hrot2 : (_subdivide s e L 2).map Period.lord = spec_rotation L := by
      rw [subdivide_lords, seq_from_indexOf_eq_rotation hL]
    refine ⟨?_, ?_, ?_, ?_⟩
    · rw [List.pairwise_map]
      exact hs2.imp fun hab => hab
    · intro c hc
      rw [List.mem_map] at hc
      obtain ⟨c0, hc0, rfl⟩ := hc
      exact hb2 c0 hc0
    · intro x hx
      rw [List.mem_map] at hx
      obtain ⟨c, hc2, rfl⟩ := hx
      have hcl : c.lord ∈ DASHA_LORDS := (subdivide_mem hc2).2.2.2.2.2.2
      have hcn : c.start ≤ c.stop := hn2 c hc2
      have hs3 := subdivide_sorted hcn c.lord 3
      have hb3 : ∀ p ∈ _subdivide c.start c.stop c.lord 3, c.start ≤ p.start ∧ p.stop ≤ c.stop :=
        fun p hp => subdivide_bounds hcn c.lord 3 hp
      have hrot3 : (_subdivide c.start c.stop c.lord 3).map Period.lord = spec_rotation c.lord := by
        rw [subdivide_lords, seq_from_indexOf_eq_rotation hcl]
      refine TreeInv.mk _ rfl ?_ ?_ hcl ?_ ?_
      · show List.Pairwise _ (if depth ≥ 3 then _ else [])
        by_cases h3 : depth ≥ 3
        · rw [if_pos h3, List.pairwise_map]
          exact hs3.imp fun hab => hab
        · rw [if_neg h3]; exact List.Pairwise.nil
      · show ∀ k ∈ (if depth ≥ 3 then _ else []), _
        by_cases h3 : depth ≥ 3
        · rw [if_pos h3]
          intro k hk
          rw [List.mem_map] at hk
          obtain ⟨cc, hcc3, rfl⟩ := hk
          exact hb3 cc hcc3
        · rw [if_neg h3]; intro k hk; exact absurd hk (List.not_mem_nil k)
      · show IsBlockOf ((if depth ≥ 3 then _ else []).map Period.lord) (spec_rotation c.lord)
        by_cases h3 : depth ≥ 3
        · rw [if_pos h3, List.map_map]
          have : (_subdivide c.start c.stop c.lord 3).map
              (Period.lord ∘ (fun cc =>
                ({ lord := cc.lord, level := cc.level, start := cc.start, stop := cc.stop,
                   durationDays := cc.durationDays, yearsShare := cc.yearsShare,
                   active := at_dt.map (fun t => decide (cc.start ≤ t ∧ t < cc.stop)),
                   children := cc.children } : Period))) =
              (_subdivide c.start c.stop c.lord 3).map Period.lord :=
            List.map_congr_left fun cc _ => rfl
          rw [this, hrot3]
          exact block_refl _
        · rw [if_neg h3]; exact block_nil _
      · show ∀ k ∈ (if depth ≥ 3 then _ else []), TreeInv at_dt k
        by_cases h3 : depth ≥ 3
        · rw [if_pos h3]
          intro k hk
          rw [List.mem_map] at hk
          obtain ⟨cc, hcc3, rfl⟩ := hk
          exact treeInv_leaf rfl (subdivide_mem hcc3).2.2.2.2.2.2
            ((subdivide_mem hcc3).2.2.2.2.2.1)
        · rw [if_neg h3]; intro k hk; exact absurd hk (List.not_mem_nil k)
    · rw [List.map_map]
      refine ⟨[], [], ?_⟩
      rw [List.nil_append, List.append_nil, ← hrot2]
      exact List.map_congr_left fun c _ => rfl
lemma mahaLoop_props (ws we : ℚ) (depth : ℤ) (at_dt : Option ℚ) (li : ℕ) :
    ∀ (fuel : ℕ) (cursor : ℚ) (k : ℕ),
      (∀ p ∈ mahaLoop ws we depth at_dt li fuel cursor k,
        max cursor ws ≤ p.start ∧ ws ≤ p.start ∧ p.stop ≤ we ∧ TreeInv at_dt p) ∧
      List.Pairwise (fun a b => a.stop ≤ b.start)
        (mahaLoop ws we depth at_dt li fuel cursor k) := by
  intro fuel
  induction fuel with
  | zero =>
    intro cursor k
    exact ⟨fun p hp => absurd hp (List.not_mem_nil p), List.Pairwise.nil⟩
  | succ fuel ih =>
    intro cursor k
    rw [mahaLoop]
    by_cases hcw : cursor < we
    case neg =>
      rw [if_neg hcw]
      exact ⟨fun p hp => absurd hp (List.not_mem_nil p), List.Pairwise.nil⟩
    case pos =>
      rw [if_pos hcw]
      simp only [trim_fst, trim_snd]
      set L := DASHA_LORDS.getD ((li + k) % 9) "" with hLdef
      set dE := cursor + (DASHA_YEARS L : ℚ) * DAYS_PER_YEAR with hdEdef
      have hLmem : L ∈ DASHA_LORDS := lords_getD_mem _
      have hcd : cursor ≤ dE := by
        have h1 : (0 : ℚ) ≤ (DASHA_YEARS L : ℚ) := Nat.cast_nonneg _
        have h2 : (0 : ℚ) ≤ DAYS_PER_YEAR := by norm_num [DAYS_PER_YEAR]
        nlinarith
      obtain ⟨ihmem, ihpair⟩ := ih dE (k + 1)
      by_cases hov : _overlaps cursor dE ws we = true
      case neg =>
        rw [if_neg hov, List.nil_append]
        refine ⟨fun p hp => ?_, ihpair⟩
        obtain ⟨h1, h2, h3, h4⟩ := ihmem p hp
        exact ⟨le_trans (max_le_max hcd le_rfl) h1, h2, h3, h4⟩
      case pos =>
        rw [if_pos hov, List.singleton_append]
        obtain ⟨hov1, hov2⟩ := overlaps_iff.mp hov
        have hnode : ∀ q,
            q = ({ lord := L, level := 1, start := cursor ⊔ ws, stop := dE ⊓ we,
                   durationDays := dE ⊓ we - cursor ⊔ ws, yearsShare := (DASHA_YEARS L : ℚ),
                   active := at_dt.map (fun t => decide (cursor ⊔ ws ≤ t ∧ t < dE ⊓ we)),
                   children :=
                     if depth ≥ 2 ∧ (decide (dE > we) && decide (cursor < we)) = true then
                       _build_children_with_full_parent L cursor dE ws we depth at_dt
                     else attach_children depth at_dt (cursor ⊔ ws) (dE ⊓ we) L } : Period) →
            max cursor ws ≤ q.start ∧ ws ≤ q.start ∧ q.stop ≤ we ∧ TreeInv at_dt q := by
          intro q hq
          subst hq
          refine ⟨le_rfl, le_max_right _ _, min_le_right _ _, ?_⟩
          by_cases hc : depth ≥ 2 ∧ (decide (dE > we) && decide (cursor < we)) = true
          · rw [if_pos hc]
            obtain ⟨hb1, hb2, hb3, hb4⟩ :=
              build_children_props depth at_dt cursor dE ws we hcd L hLmem
            exact TreeInv.mk _ rfl hb1 hb2 hLmem hb4 hb3
          · rw [if_neg hc]
            by_cases hd2 : depth ≥ 2
            · have hdwe : dE ≤ we := by
                by_contra hcon
                exact hc ⟨hd2, by simp [not_le.mp hcon, hcw]⟩
              have hse : (cursor ⊔ ws : ℚ) ≤ dE ⊓ we := by
                rw [le_min_iff, max_le_iff, max_le_iff]
                exact ⟨⟨hcd, hov1.le⟩, ⟨hcw.le, le_trans hov1.le hdwe⟩⟩
              obtain ⟨ha1, ha2, ha3, ha4⟩ :=
                attach_children_props depth at_dt (cursor ⊔ ws) (dE ⊓ we) hse L hLmem
              exact TreeInv.mk _ rfl ha1 ha2 hLmem ha4 ha3
            · rw [attach_children_eq, if_neg hd2]
              exact treeInv_leaf rfl hLmem rfl
        constructor
        · intro p hp
          rcases List.mem_cons.mp hp with rfl | hp
          · exact hnode _ rfl
          · obtain ⟨h1, h2, h3, h4⟩ := ihmem p hp
            exact ⟨le_trans (max_le_max hcd le_rfl) h1, h2, h3, h4⟩
        · refine List.pairwise_cons.mpr ⟨fun b hb => ?_, ihpair⟩
          obtain ⟨h1, -, -, -⟩ := ihmem b hb
          exact le_trans (min_le_left _ _) (le_trans (le_max_left _ _) h1)
lemma maha_full_le (birth_utc moon : ℚ) :
    maha_start_full_of birth_utc moon ≤ maha_end_full_of birth_utc moon := by
  rw [maha_end_full_of]
  have h1 : (0 : ℚ) ≤ (DASHA_YEARS (start_lord_of moon) : ℚ) := Nat.cast_nonneg _
  have h2 : (0 : ℚ) ≤ DAYS_PER_YEAR := by norm_num [DAYS_PER_YEAR]
  nlinarith

lemma maha_end_full_eq_first_end (birth_utc moon : ℚ) :
    maha_end_full_of birth_utc moon = first_end_of birth_utc moon := by
  rw [maha_end_full_of, maha_start_full_of, first_end_of, balance_days_of]
  ring

lemma timeline_props (birth_utc moon : ℚ) (depth0 : ℤ) (f t a : Option ℚ) :
    (∀ p ∈ (calculate_vimshottari_timeline birth_utc moon depth0 f t a).1,
      window_start_of birth_utc f ≤ p.start ∧
      p.stop ≤ window_end_of birth_utc t ∧ TreeInv a p) ∧
    List.Pairwise (fun x y => x.stop ≤ y.start)
      (calculate_vimshottari_timeline birth_utc moon depth0 f t a).1 := by
  rw [calculate_vimshottari_timeline]
  simp only [trim_fst, trim_snd]
  obtain ⟨lmem, lpair⟩ := mahaLoop_props (window_start_of birth_utc f)
    (window_end_of birth_utc t) (clamp_depth depth0) a
    (DASHA_LORDS.indexOf (start_lord_of moon))
    ((⌈window_end_of birth_utc t - first_end_of birth_utc moon⌉).toNat + 1)
    (first_end_of birth_utc moon) 1
  by_cases hov : _overlaps birth_utc (first_end_of birth_utc moon)
      (window_start_of birth_utc f) (window_end_of birth_utc t) = true
  case neg =>
    rw [if_neg hov, List.nil_append]
    refine ⟨fun p hp => ?_, lpair⟩
    obtain ⟨h1, h2, h3, h4⟩ := lmem p hp
    exact ⟨h2, h3, h4⟩
  case pos =>
    rw [if_pos hov, List.singleton_append]
    have hbal : birth_utc < first_end_of birth_utc moon := by
      rw [first_end_of]; linarith [balance_days_pos moon]
    obtain ⟨hb1, hb2, hb3, hb4⟩ := build_children_props (clamp_depth depth0) a
      (maha_start_full_of birth_utc moon) (maha_end_full_of birth_utc moon)
      (max birth_utc (window_start_of birth_utc f))
      (min (maha_end_full_of birth_utc moon) (window_end_of birth_utc t))
      (maha_full_le birth_utc moon) (start_lord_of moon) (start_lord_mem moon)
    have hnodeInv : TreeInv a
        ({ lord := start_lord_of moon, level := 1,
           start := max birth_utc (window_start_of birth_utc f),
           stop := min (first_end_of birth_utc moon) (window_end_of birth_utc t),
           durationDays := min (first_end_of birth_utc moon) (window_end_of birth_utc t) -
             max birth_utc (window_start_of birth_utc f),
           yearsShare := (DASHA_YEARS (start_lord_of moon) : ℚ),
           active := a.map (fun u => decide
             (max birth_utc (window_start_of birth_utc f) ≤ u ∧
              u < min (first_end_of birth_utc moon) (window_end_of birth_utc t))),
           children := _build_children_with_full_parent (start_lord_of moon)
             (maha_start_full_of birth_utc moon) (maha_end_full_of birth_utc moon)
             (max birth_utc (window_start_of birth_utc f))
             (min (maha_end_full_of birth_utc moon) (window_end_of birth_utc t))
             (clamp_depth depth0) a } : Period) := by
      refine TreeInv.mk _ rfl hb1 ?_ (start_lord_mem moon) hb4 hb3
      intro c hc
      obtain ⟨hc1, hc2⟩ := hb2 c hc
      constructor
      · exact le_trans (le_max_right _ _) hc1
      · refine le_trans hc2 ?_
        rw [maha_end_full_eq_first_end]
        exact min_le_right _ _
    constructor
    · intro p hp
      rcases List.mem_cons.mp hp with rfl | hp
      · refine ⟨le_max_right _ _, ?_, ?_⟩
        · exact min_le_right _ _
        · rw [show min (first_end_of birth_utc moon) (window_end_of birth_utc t) =
              min (maha_end_full_of birth_utc moon) (window_end_of birth_utc t) by
            rw [maha_end_full_eq_first_end]] at hnodeInv ⊢
          exact hnodeInv
      · obtain ⟨h1, h2, h3, h4⟩ := lmem p hp
        exact ⟨h2, h3, h4⟩
    · refine List.pairwise_cons.mpr ⟨fun b hb => ?_, lpair⟩
      obtain ⟨h1, -, -, -⟩ := lmem b hb
      exact le_trans (min_le_left _ _) (le_trans (le_max_left _ _) h1)
lemma pairwise_flatMap_children {a? : Option ℚ} (tl : List Period)
    (hmem : ∀ p ∈ tl, TreeInv a? p)
    (hpair : List.Pairwise (fun x y => x.stop ≤ y.start) tl) :
    List.Pairwise (fun x y => x.stop ≤ y.start) (tl.flatMap Period.children) := by
  rw [List.flatMap_def, List.pairwise_flatten]
  constructor
  · intro l hl
    rw [List.mem_map] at hl
    obtain ⟨p, hp, rfl⟩ := hl
    exact (hmem p hp).children_sorted
  · rw [List.pairwise_map]
    refine hpair.imp_of_mem fun {p q} hp hq hpq => ?_
    intro x hx y hy
    have hx2 := ((hmem p hp).children_sub x hx).2
    have hy1 := ((hmem q hq).children_sub y hy).1
    exact le_trans hx2 (le_trans hpq hy1)

lemma levelEmitted_props (a? : Option ℚ) (ws we : ℚ) :
    ∀ (g : ℕ) (tl : List Period),
      (∀ p ∈ tl, ws ≤ p.start ∧ p.stop ≤ we ∧ TreeInv a? p) →
      List.Pairwise (fun x y => x.stop ≤ y.start) tl →
      (∀ p ∈ levelEmitted g tl, ws ≤ p.start ∧ p.stop ≤ we ∧ TreeInv a? p) ∧
      List.Pairwise (fun x y => x.stop ≤ y.start) (levelEmitted g tl) := by
  intro g
  induction g with
  | zero => intro tl hmem hpair; exact ⟨hmem, hpair⟩
  | succ g ih =>
    intro tl hmem hpair
    rw [levelEmitted]
    apply ih
    · intro c hc
      rw [List.mem_flatMap] at hc
      obtain ⟨p, hp, hcp⟩ := hc
      obtain ⟨h1, h2, h3⟩ := hmem p hp
      obtain ⟨hc1, hc2⟩ := h3.children_sub c hcp
      exact ⟨le_trans h1 hc1, le_trans hc2 h2, h3.rec_children c hcp⟩
    · exact pairwise_flatMap_children tl (fun p hp => (hmem p hp).2.2) hpair

lemma filter_length_le_one {α} (P : α → Bool) (l : List α)
    (h : List.Pairwise (fun x y => ¬(P x = true ∧ P y = true)) l) :
    (l.filter P).length ≤ 1 := by
  induction l with
  | nil => simp
  | cons x tl ih =>
    obtain ⟨hx, htl⟩ := List.pairwise_cons.mp h
    by_cases hP : P x = true
    · rw [List.filter_cons_of_pos (by simp [hP])]
      have hnil : tl.filter P = [] := by
        refine filter_false_of_all _ _ fun y hy => ?_
        cases hPy : P y
        · rfl
        · exact absurd ⟨hP, hPy⟩ (hx y hy)
      rw [hnil]
      norm_num
    · rw [List.filter_cons_of_neg (by simp [hP])]
      exact ih htl
/-- Claim C4 (amended): every period emitted at any level of the timeline is
reported with bounds inside the window, `windowStart ≤ clippedStart` and
`clippedEnd ≤ windowEnd`, at level 1 the bounds being exactly
`max(periodStart, windowStart)` and `min(periodEnd, windowEnd)`; at deeper
levels the clip is taken against a visible sub-window of the reporting window
whose lower edge is raised from `windowStart` to `birth` for descendants of the
birth-truncated first Mahadasha, so the plain `max(periodStart, windowStart)`
formula of the original claim fails there (see the counterexample). -/
theorem claim_C4 (birth_utc moon : ℚ) (depth : ℤ) (f t a : Option ℚ) (g : ℕ) :
    ∀ p ∈ levelEmitted g (calculate_vimshottari_timeline birth_utc moon depth f t a).1,
      window_start_of birth_utc f ≤ p.start ∧ p.stop ≤ window_end_of birth_utc t := by
  obtain ⟨hmem, hpair⟩ := timeline_props birth_utc moon depth f t a
  obtain ⟨hg, -⟩ := levelEmitted_props a (window_start_of birth_utc f)
    (window_end_of birth_utc t) g _ hmem hpair
  intro p hp
  exact ⟨(hg p hp).1, (hg p hp).2.1⟩

/-- Claim C9: at every single level of the emitted timeline the half-open
intervals `[start, stop)` of the emitted periods are pairwise disjoint, and
consequently, whatever `at_date` is supplied, at most one period per level
carries `active = true`. -/
theorem claim_C9 (birth_utc moon : ℚ) (depth : ℤ) (f t a : Option ℚ) (g : ℕ) :
    List.Pairwise
      (fun p q => ∀ u : ℚ, ¬((p.start ≤ u ∧ u < p.stop) ∧ (q.start ≤ u ∧ u < q.stop)))
      (levelEmitted g (calculate_vimshottari_timeline birth_utc moon depth f t a).1) ∧
    ((levelEmitted g (calculate_vimshottari_timeline birth_utc moon depth f t a).1).filter
        (fun p => decide (p.active = some true))).length ≤ 1 := by
  obtain ⟨hmem, hpair⟩ := timeline_props birth_utc moon depth f t a
  obtain ⟨hg, hgpair⟩ := levelEmitted_props a (window_start_of birth_utc f)
    (window_end_of birth_utc t) g _ hmem hpair
  constructor
  · refine hgpair.imp fun {p q} hpq => ?_
    rintro u ⟨⟨-, hu1⟩, hu2, -⟩
    exact absurd (lt_of_lt_of_le hu1 (le_trans hpq hu2)) (lt_irrefl u)
  · refine filter_length_le_one _ _ (hgpair.imp_of_mem fun {p q} hp hq hpq => ?_)
    rintro ⟨hP, hQ⟩
    rw [decide_eq_true_eq] at hP hQ
    have hap := (hg p hp).2.2.active_eq
    have haq := (hg q hq).2.2.active_eq
    rw [hP] at hap
    rw [hQ] at haq
    obtain ⟨u, hau, hdu⟩ := (Option.map_eq_some'.mp hap.symm)
    obtain ⟨u', hau', hdu'⟩ := (Option.map_eq_some'.mp haq.symm)
    rw [hau] at hau'
    injection hau' with huu
    subst huu
    rw [decide_eq_true_eq] at hdu hdu'
    exact absurd (lt_of_lt_of_le hdu.2 (le_trans hpq hdu'.1)) (lt_irrefl u)

/-- Claim C5 (amended): every period in the emitted timeline is ruled by one of
the nine table lords, and its children's lords form one contiguous block of the
9-lord table rotated to start at its own lord; the block starts at the parent's
lord itself except when the leading children of the canonical subdivision were
clipped away by birth or the reporting window, in which case the first child is
a later lord of the rotation (as in the C2 scenario, where Ketu's first visible
Antardasha is Venus — see the counterexample). -/
theorem claim_C5 (birth_utc moon : ℚ) (depth : ℤ) (f t a : Option ℚ) (g : ℕ) :
    ∀ p ∈ levelEmitted g (calculate_vimshottari_timeline birth_utc moon depth f t a).1,
      p.lord ∈ DASHA_LORDS ∧
      IsBlockOf (p.children.map Period.lord) (spec_rotation p.lord) := by
  obtain ⟨hmem, hpair⟩ := timeline_props birth_utc moon depth f t a
  obtain ⟨hg, -⟩ := levelEmitted_props a (window_start_of birth_utc f)
    (window_end_of birth_utc t) g _ hmem hpair
  intro p hp
  exact ⟨(hg p hp).2.2.lord_mem, (hg p hp).2.2.block⟩
lemma overlaps_eq_decide (a b ws we : ℚ) :
    _overlaps a b ws we = decide (ws < b ∧ a < we) := by
  by_cases h : ws < b ∧ a < we
  · rw [overlaps_iff.mpr h]
    exact (decide_eq_true h).symm
  · rw [decide_eq_false h]
    cases hb : _overlaps a b ws we
    · rfl
    · exact absurd (overlaps_iff.mp hb) h

lemma filterMap_ite_prop {α β} (f : α → β) (P : α → Prop) [DecidablePred P] (l : List α) :
    (l.filterMap (fun a => if P a then some (f a) else none)) =
      (l.filter (fun a => decide (P a))).map f := by
  induction l with
  | nil => rfl
  | cons a t ih =>
    by_cases h : P a
    · rw [List.filterMap_cons, List.filter_cons_of_pos (by simp [h])]
      simp [h, ih]
    · rw [List.filterMap_cons, List.filter_cons_of_neg (by simp [h])]
      simp [h, ih]

lemma build_children_view (L : String) (fs fe vs ve : ℚ) (depth : ℤ) (at_dt : Option ℚ) :
    (_build_children_with_full_parent L fs fe vs ve depth at_dt).map nodeView =
      if 2 ≤ depth then spec_children fs fe vs ve L (decide (3 ≤ depth)) else [] := by
  rw [build_children_eq]
  by_cases h2 : depth < 2
  · rw [if_pos h2, if_neg (by omega)]
    rfl
  · rw [if_neg h2, if_pos (by omega)]
    rw [spec_children, filterMap_ite_prop, List.map_map]
    simp only [overlaps_eq_decide]
    refine List.map_congr_left fun c hc => ?_
    show nodeView _ = _
    rw [nodeView]
    by_cases h3 : depth ≥ 3
    · have h3d : (decide (3 ≤ depth) = true) := decide_eq_true h3
      simp only [if_pos h3, h3d, if_true]
      rw [spec_canonical_clip, filterMap_ite_prop]
      simp only [overlaps_eq_decide, List.map_map]
      congr 1
    · have h3d : ¬(decide (3 ≤ depth) = true) := by simp [h3]
      simp only [if_neg h3, if_neg h3d]
      rfl
lemma mahaLoop_raw_spec (ws we : ℚ) (d : ℤ) (at_dt : Option ℚ) (li : ℕ) :
    ∀ (fuel : ℕ) (cursor : ℚ) (k : ℕ),
      ∀ n ∈ mahaLoop ws we d at_dt li fuel cursor k,
        ∃ rawS L, L ∈ DASHA_LORDS ∧ n.lord = L ∧
          n.start = max rawS ws ∧
          n.stop = min (rawS + (DASHA_YEARS L : ℚ) * DAYS_PER_YEAR) we ∧
          (2 ≤ d → we < rawS + (DASHA_YEARS L : ℚ) * DAYS_PER_YEAR →
            n.children.map nodeView =
              spec_children rawS (rawS + (DASHA_YEARS L : ℚ) * DAYS_PER_YEAR) ws we L
                (decide (3 ≤ d))) := by
  intro fuel
  induction fuel with
  | zero => intro cursor k n hn; exact absurd hn (List.not_mem_nil n)
  | succ fuel ih =>
    intro cursor k n hn
    rw [mahaLoop] at hn
    by_cases hcw : cursor < we
    case neg => rw [if_neg hcw] at hn; exact absurd hn (List.not_mem_nil n)
    case pos =>
      rw [if_pos hcw] at hn
      simp only [trim_fst, trim_snd] at hn
      set L := DASHA_LORDS.getD ((li + k) % 9) "" with hLdef
      set dE := cursor + (DASHA_YEARS L : ℚ) * DAYS_PER_YEAR with hdEdef
      by_cases hov : _overlaps cursor dE ws we = true
      case neg =>
        rw [if_neg hov, List.nil_append] at hn
        exact ih dE (k + 1) n hn
      case pos =>
        rw [if_pos hov, List.singleton_append] at hn
        rcases List.mem_cons.mp hn with rfl | hn
        · refine ⟨cursor, L, lords_getD_mem _, rfl, rfl, rfl, ?_⟩
          intro hd2 hwe
          have hcond : d ≥ 2 ∧ (decide (dE > we) && decide (cursor < we)) = true :=
            ⟨hd2, by simp [hwe, hcw]⟩
          show (if d ≥ 2 ∧ (decide (dE > we) && decide (cursor < we)) = true then
              _build_children_with_full_parent L cursor dE ws we d at_dt
            else attach_children d at_dt (cursor ⊔ ws) (dE ⊓ we) L).map nodeView = _
          rw [if_pos hcond, build_children_view, if_pos hd2]
        · exact ih dE (k + 1) n hn
/-- Claim C1 (amended): canonicalization holds for the birth-truncated first
Mahadasha and for a Mahadasha truncated at its end by the window, and the rule
recurses from level 2 into level 3 — whenever the first Mahadasha is emitted,
its children are exactly the canonical subdivision of its full (pre-birth)
interval clipped to the visible window `[max(birth, windowStart),
min(mahaEndFull, windowEnd)]` (first conjunct); and every Mahadasha emitted by
the forward sweep stems from a raw interval `[rawS, rawS + years·365.25)`
clipped against the window, whose children — when it runs past the window end —
are the canonical subdivision of that full raw interval clipped to the window
(second conjunct).  A Mahadasha truncated only at its start by the reporting
window instead subdivides its truncated interval directly (see the
counterexample), so the original every-cause claim fails. -/
theorem claim_C1 (birth_utc moon : ℚ) (depth : ℤ) (f t a : Option ℚ) :
    (_overlaps birth_utc (first_end_of birth_utc moon)
        (window_start_of birth_utc f) (window_end_of birth_utc t) = true →
      ((calculate_vimshottari_timeline birth_utc moon depth f t a).1.head?.map
          (fun n => n.children.map nodeView)) =
        some (if 2 ≤ clamp_depth depth then
          spec_children (maha_start_full_of birth_utc moon)
            (maha_end_full_of birth_utc moon)
            (max birth_utc (window_start_of birth_utc f))
            (min (maha_end_full_of birth_utc moon) (window_end_of birth_utc t))
            (start_lord_of moon) (decide (3 ≤ clamp_depth depth))
        else [])) ∧
    (∀ (ws we : ℚ) (d : ℤ) (at_dt : Option ℚ) (li fuel : ℕ) (cursor : ℚ) (k : ℕ),
      ∀ n ∈ mahaLoop ws we d at_dt li fuel cursor k,
        ∃ rawS L, L ∈ DASHA_LORDS ∧ n.lord = L ∧
          n.start = max rawS ws ∧
          n.stop = min (rawS + (DASHA_YEARS L : ℚ) * DAYS_PER_YEAR) we ∧
          (2 ≤ d → we < rawS + (DASHA_YEARS L : ℚ) * DAYS_PER_YEAR →
            n.children.map nodeView =
              spec_children rawS (rawS + (DASHA_YEARS L : ℚ) * DAYS_PER_YEAR) ws we L
                (decide (3 ≤ d)))) := by
  constructor
  · intro hov
    rw [calculate_vimshottari_timeline]
    simp only [trim_fst, trim_snd]
    rw [if_pos hov, List.singleton_append, List.head?_cons, Option.map_some']
    rw [build_children_view]
  · exact fun ws we d at_dt li fuel cursor k => mahaLoop_raw_spec ws we d at_dt li fuel cursor k
/-- Witness for claim C1 at a concrete input: the C2 scenario (birth 0, Moon
8/3, depth 2, default window), whose first Mahadasha overlaps the window. -/
theorem claim_C1_witness :
    (_overlaps 0 (first_end_of 0 (8/3)) (window_start_of 0 none)
      (window_end_of 0 none) = true) ∧
    ((calculate_vimshottari_timeline 0 (8/3) 2 none none none).1.head?.map
        (fun n => n.children.map nodeView)) =
      some (if 2 ≤ clamp_depth 2 then
        spec_children (maha_start_full_of 0 (8/3)) (maha_end_full_of 0 (8/3))
          (max 0 (window_start_of 0 none))
          (min (maha_end_full_of 0 (8/3)) (window_end_of 0 none))
          (start_lord_of (8/3)) (decide (3 ≤ clamp_depth 2))
      else []) := by
  have h : _overlaps 0 (first_end_of 0 (8/3)) (window_start_of 0 none)
      (window_end_of 0 none) = true := by
    norm_num [overlaps_iff, first_end_of, balance_days_of, start_lord_of,
      _nakshatra_index_and_fraction, pyMod, NAKSHATRA_SPAN_DEG, DAYS_PER_YEAR,
      DASHA_LORDS, DASHA_YEARS, window_start_of, window_end_of]
  exact ⟨h, (claim_C1 0 (8/3) 2 none none none).1 h⟩
set_option maxHeartbeats 2000000 in
/-- Counterexample to claim C1 as stated: birth 0, Moon 0°, depth 2, window
[3000, 12000].  The head of the emitted timeline is the Venus Mahadasha, whose
canonical full interval is [2556.75, 9861.75) = [first_end, first_end + 20
years) — it is emitted as the strict sub-interval [3000, 9861.75), truncated at
its start by the reporting window — yet its first child ends at 4143.625 days:
the children were obtained by subdividing the truncated interval (rescaled
durations), not by clipping the canonical subdivision, whose first visible
child would end at 3774.25 days. -/
theorem claim_C1_counterexample :
    first_end_of 0 0 = 10227/4 ∧
    (10227/4 : ℚ) + (DASHA_YEARS "Venus" : ℚ) * DAYS_PER_YEAR = 39447/4 ∧
    ((calculate_vimshottari_timeline 0 0 2 (some 3000) (some 12000) none).1.head?.map
        (fun n => (n.lord, n.start, n.stop, n.children.head?.map childView)))
      = some ("Venus", 3000, 39447/4, some ("Venus", 3000, 33149/8)) ∧
    (spec_canonical_clip (10227/4) (39447/4) 3000 12000 "Venus" 2).head? =
      some ("Venus", 3000, 15097/4) ∧
    ((33149 : ℚ)/8) ≠ 15097/4 := by
  refine ⟨?_, ?_, ?_, ?_, by norm_num⟩
  · norm_num [first_end_of, balance_days_of, start_lord_of,
      _nakshatra_index_and_fraction, pyMod, NAKSHATRA_SPAN_DEG, DAYS_PER_YEAR,
      DASHA_LORDS, DASHA_YEARS]
  · norm_num [DASHA_YEARS, DAYS_PER_YEAR]
  · norm_num [calculate_vimshottari_timeline, clamp_depth, window_start_of, window_end_of,
      start_lord_of, first_end_of, balance_days_of, maha_start_full_of, maha_end_full_of,
      _nakshatra_index_and_fraction, pyMod, NAKSHATRA_SPAN_DEG, DAYS_PER_YEAR,
      DASHA_LORDS, DASHA_YEARS, _overlaps, _trim_to_window, mahaLoop,
      _build_children_with_full_parent, attach_children, _subdivide, subChildren, _seq_from,
      List.range_succ, childView, Int.ceil_eq_iff,
      show (List.indexOf "Venus"
        ["Ketu", "Venus", "Sun", "Moon", "Mars", "Rahu", "Jupiter", "Saturn", "Mercury"]) = 1
        from by decide]
  · norm_num [spec_canonical_clip, _subdivide, subChildren, _seq_from,
      DASHA_LORDS, DASHA_YEARS, List.range_succ,
      show (List.indexOf "Venus"
        ["Ketu", "Venus", "Sun", "Moon", "Mars", "Rahu", "Jupiter", "Saturn", "Mercury"]) = 1
        from by decide]
lemma headD_mem {α} {l : List α} (d : α) (h : l ≠ []) : l.headD d ∈ l := by
  cases l with
  | nil => exact absurd rfl h
  | cons a t => exact List.mem_cons_self _ _

set_option maxHeartbeats 1000000 in
/-- Counterexample to claim C4 as stated: birth 0, Moon 8/3, depth 2,
`from_date = −730` (two years before birth), default window end.  The first
emitted Antardasha under the Ketu Mahadasha is Venus, reported with
`clippedStart = 0` (= birth), although its canonical period starts at
−362.20625 and the claim's formula `max(periodStart, windowStart)` gives
`max(−362.20625, −730) = −362.20625 ≠ 0`: the lower clip bound of
first-Mahadasha descendants is raised to birth, not windowStart. -/
theorem claim_C4_counterexample :
    (((calculate_vimshottari_timeline 0 (8/3) 2 (some (-730)) none none).1.head?.bind
        (fun p => p.children.head?)).map childView) = some ("Venus", 0, 10227/160) ∧
    ((_subdivide (maha_start_full_of 0 (8/3)) (maha_end_full_of 0 (8/3))
        (start_lord_of (8/3)) 2).getD 1 default).lord = "Venus" ∧
    ((_subdivide (maha_start_full_of 0 (8/3)) (maha_end_full_of 0 (8/3))
        (start_lord_of (8/3)) 2).getD 1 default).start = -57953/160 ∧
    max (-57953/160 : ℚ) (window_start_of 0 (some (-730))) ≠ (0 : ℚ) := by
  refine ⟨?_, ?_, ?_, by norm_num [window_start_of]⟩
  · rw [calculate_vimshottari_timeline]
    have hc : _overlaps 0 (first_end_of 0 (8/3)) (window_start_of 0 (some (-730)))
        (window_end_of 0 none) = true := by
      norm_num [overlaps_iff, first_end_of, balance_days_of, start_lord_of,
        _nakshatra_index_and_fraction, pyMod, NAKSHATRA_SPAN_DEG, DAYS_PER_YEAR,
        DASHA_LORDS, DASHA_YEARS, window_start_of, window_end_of]
    rw [hc]
    simp only [if_true, List.singleton_append, List.head?_cons]
    norm_num [clamp_depth, window_start_of, window_end_of,
      start_lord_of, first_end_of, balance_days_of, maha_start_full_of, maha_end_full_of,
      _nakshatra_index_and_fraction, pyMod, NAKSHATRA_SPAN_DEG, DAYS_PER_YEAR,
      DASHA_LORDS, DASHA_YEARS, _overlaps, _trim_to_window,
      _build_children_with_full_parent, _subdivide, subChildren, _seq_from,
      List.range_succ, childView]
  · norm_num [maha_start_full_of, maha_end_full_of, start_lord_of,
      _nakshatra_index_and_fraction, pyMod, NAKSHATRA_SPAN_DEG, DAYS_PER_YEAR,
      DASHA_LORDS, DASHA_YEARS, _subdivide, subChildren, _seq_from, List.range_succ]
  · norm_num [maha_start_full_of, maha_end_full_of, start_lord_of,
      _nakshatra_index_and_fraction, pyMod, NAKSHATRA_SPAN_DEG, DAYS_PER_YEAR,
      DASHA_LORDS, DASHA_YEARS, _subdivide, subChildren, _seq_from, List.range_succ]

/-- Witness for claim C4 at a concrete input: the first emitted Mahadasha of
the timeline for birth 0, Moon 0°, depth 1, default window. -/
theorem claim_C4_witness :
    window_start_of 0 none ≤
      ((levelEmitted 0 (calculate_vimshottari_timeline 0 0 1 none none none).1).headD
        default).start ∧
    ((levelEmitted 0 (calculate_vimshottari_timeline 0 0 1 none none none).1).headD
        default).stop ≤ window_end_of 0 none := by
  have hov : _overlaps 0 (first_end_of 0 0) (window_start_of 0 none)
      (window_end_of 0 none) = true := by
    norm_num [overlaps_iff, first_end_of, balance_days_of, start_lord_of,
      _nakshatra_index_and_fraction, pyMod, NAKSHATRA_SPAN_DEG, DAYS_PER_YEAR,
      DASHA_LORDS, DASHA_YEARS, window_start_of, window_end_of]
  have hne : levelEmitted 0 (calculate_vimshottari_timeline 0 0 1 none none none).1 ≠ [] := by
    show (calculate_vimshottari_timeline 0 0 1 none none none).1 ≠ []
    rw [calculate_vimshottari_timeline, hov]
    simp
  exact claim_C4 0 0 1 none none none 0 _ (headD_mem default hne)

set_option maxHeartbeats 1000000 in
/-- Counterexample to claim C5 as stated: in the C2 scenario (birth 0, Moon
8/3, depth 2, default window) the first emitted Mahadasha is ruled by Ketu and
has a non-empty child list whose first child is Venus, not Ketu: the Ketu
sub-period was clipped away by birth. -/
theorem claim_C5_counterexample :
    ((calculate_vimshottari_timeline 0 (8/3) 2 none none none).1.head?.map
        (fun p => (p.lord, p.children.map Period.lord)))
      = some ("Ketu", ["Venus", "Sun", "Moon", "Mars", "Rahu", "Jupiter", "Saturn", "Mercury"]) ∧
    ("Venus" : String) ≠ "Ketu" := by
  refine ⟨?_, by decide⟩
  have hc : _overlaps 0 (first_end_of 0 (8/3)) (window_start_of 0 none)
      (window_end_of 0 none) = true := by
    norm_num [overlaps_iff, first_end_of, balance_days_of, start_lord_of,
      _nakshatra_index_and_fraction, pyMod, NAKSHATRA_SPAN_DEG, DAYS_PER_YEAR,
      DASHA_LORDS, DASHA_YEARS, window_start_of, window_end_of]
  have hsub : _subdivide (maha_start_full_of 0 (8/3)) (maha_end_full_of 0 (8/3))
      (start_lord_of (8/3)) 2 =
      [{ lord := "Ketu", level := 2, start := -10227/20, stop := -57953/160,
         durationDays := 23863/160, yearsShare := 7, active := none, children := [] },
       { lord := "Venus", level := 2, start := -57953/160, stop := 10227/160,
         durationDays := 3409/8, yearsShare := 20, active := none, children := [] },
       { lord := "Sun", level := 2, start := 10227/160, stop := 30681/160,
         durationDays := 10227/80, yearsShare := 6, active := none, children := [] },
       { lord := "Moon", level := 2, start := 30681/160, stop := 64771/160,
         durationDays := 3409/16, yearsShare := 10, active := none, children := [] },
       { lord := "Mars", level := 2, start := 64771/160, stop := 44317/80,
         durationDays := 23863/160, yearsShare := 7, active := none, children := [] },
       { lord := "Rahu", level := 2, start := 44317/80, stop := 37499/40,
         durationDays := 30681/80, yearsShare := 18, active := none, children := [] },
       { lord := "Jupiter", level := 2, start := 37499/40, stop := 10227/8,
         durationDays := 3409/10, yearsShare := 16, active := none, children := [] },
       { lord := "Saturn", level := 2, start := 10227/8, stop := 269311/160,
         durationDays := 64771/160, yearsShare := 19, active := none, children := [] },
       { lord := "Mercury", level := 2, start := 269311/160, stop := 10227/5,
         durationDays := 57953/160, yearsShare := 17, active := none, children := [] }] := by
    norm_num [maha_start_full_of, maha_end_full_of, start_lord_of,
      _nakshatra_index_and_fraction, pyMod, NAKSHATRA_SPAN_DEG, DAYS_PER_YEAR,
      DASHA_LORDS, DASHA_YEARS, _subdivide, subChildren, _seq_from, List.range_succ]
  rw [calculate_vimshottari_timeline, hc]
  simp only [if_true, List.singleton_append, List.head?_cons, Option.map_some']
  rw [build_children_eq, if_neg (by norm_num [clamp_depth] : ¬(clamp_depth 2 < 2)),
    List.map_map, hsub]
  norm_num [start_lord_of, first_end_of, balance_days_of, maha_end_full_of, maha_start_full_of,
    window_start_of, window_end_of,
    _nakshatra_index_and_fraction, pyMod, NAKSHATRA_SPAN_DEG, DAYS_PER_YEAR,
    DASHA_LORDS, DASHA_YEARS, _overlaps, List.filter_cons, Function.comp]

/-- Witness for claim C5 at a concrete input: the first emitted Mahadasha of
the timeline for birth 0, Moon 0°, depth 2, default window. -/
theorem claim_C5_witness :
    ((levelEmitted 0 (calculate_vimshottari_timeline 0 0 2 none none none).1).headD
        default).lord ∈ DASHA_LORDS ∧
    IsBlockOf
      ((((levelEmitted 0 (calculate_vimshottari_timeline 0 0 2 none none none).1).headD
        default).children).map Period.lord)
      (spec_rotation
        (((levelEmitted 0 (calculate_vimshottari_timeline 0 0 2 none none none).1).headD
          default).lord)) := by
  have hov : _overlaps 0 (first_end_of 0 0) (window_start_of 0 none)
      (window_end_of 0 none) = true := by
    norm_num [overlaps_iff, first_end_of, balance_days_of, start_lord_of,
      _nakshatra_index_and_fraction, pyMod, NAKSHATRA_SPAN_DEG, DAYS_PER_YEAR,
      DASHA_LORDS, DASHA_YEARS, window_start_of, window_end_of]
  have hne : levelEmitted 0 (calculate_vimshottari_timeline 0 0 2 none none none).1 ≠ [] := by
    show (calculate_vimshottari_timeline 0 0 2 none none none).1 ≠ []
    rw [calculate_vimshottari_timeline, hov]
    simp
  exact claim_C5 0 0 2 none none none 0 _ (headD_mem default hne)
lemma lords_years_ge_six (i : ℕ) : 6 ≤ DASHA_YEARS (DASHA_LORDS.getD (i % 9) "") := by
  have h : i % 9 < 9 := Nat.mod_lt _ (by norm_num)
  set r := i % 9 with hr
  interval_cases r <;> decide

/-- The fuel supplied to `mahaLoop` is irrelevant once it is at least
`⌈window_end - cursor⌉.toNat`: every iteration advances the cursor by at least
six 365.25-day years, so the fuel-free Python `while` loop and the embedded
loop agree.  The top level of `calculate_vimshottari_timeline` supplies
`⌈window_end - first_end⌉.toNat + 1`. -/
lemma mahaLoop_fuel_irrelevant (ws we : ℚ) (d : ℤ) (at_dt : Option ℚ) (li : ℕ) :
    ∀ (f1 f2 : ℕ) (cursor : ℚ) (k : ℕ),
      (⌈we - cursor⌉).toNat ≤ f1 → (⌈we - cursor⌉).toNat ≤ f2 →
      mahaLoop ws we d at_dt li f1 cursor k = mahaLoop ws we d at_dt li f2 cursor k := by
  intro f1
  induction f1 with
  | zero =>
    intro f2 cursor k h1 h2
    have hwe : ¬(cursor < we) := by
      intro hlt
      have hq : (0 : ℚ) < we - cursor := by linarith
      have hz : (0 : ℤ) < ⌈we - cursor⌉ := Int.ceil_pos.mpr hq
      omega
    cases f2 with
    | zero => rfl
    | succ m =>
      simp only [mahaLoop]
      rw [if_neg hwe]
  | succ n ih =>
    intro f2 cursor k h1 h2
    cases f2 with
    | zero =>
      have hwe : ¬(cursor < we) := by
        intro hlt
        have hq : (0 : ℚ) < we - cursor := by linarith
        have hz : (0 : ℤ) < ⌈we - cursor⌉ := Int.ceil_pos.mpr hq
        omega
      simp only [mahaLoop]
      rw [if_neg hwe]
    | succ m =>
      by_cases hcw : cursor < we
      case neg =>
        simp only [mahaLoop]
        rw [if_neg hcw, if_neg hcw]
      case pos =>
        simp only [mahaLoop]
        rw [if_pos hcw, if_pos hcw]
        congr 1
        have hy : 6 ≤ DASHA_YEARS (DASHA_LORDS.getD ((li + k) % 9) "") := lords_years_ge_six _
        have hyQ : (6 : ℚ) ≤ (DASHA_YEARS (DASHA_LORDS.getD ((li + k) % 9) "") : ℚ) := by
          exact_mod_cast hy
        have hdpy : (0 : ℚ) < DAYS_PER_YEAR := by norm_num [DAYS_PER_YEAR]
        have hstep : (1 : ℚ) ≤
            (DASHA_YEARS (DASHA_LORDS.getD ((li + k) % 9) "") : ℚ) * DAYS_PER_YEAR := by
          have h6 : (6 : ℚ) * DAYS_PER_YEAR ≤
              (DASHA_YEARS (DASHA_LORDS.getD ((li + k) % 9) "") : ℚ) * DAYS_PER_YEAR :=
            mul_le_mul_of_nonneg_right hyQ hdpy.le
          have h6v : (6 : ℚ) * DAYS_PER_YEAR = 2191.5 := by norm_num [DAYS_PER_YEAR]
          linarith
        have hmono : we - (cursor +
            (DASHA_YEARS (DASHA_LORDS.getD ((li + k) % 9) "") : ℚ) * DAYS_PER_YEAR) ≤
            (we - cursor) - 1 := by linarith
        have hceil : ⌈we - (cursor +
            (DASHA_YEARS (DASHA_LORDS.getD ((li + k) % 9) "") : ℚ) * DAYS_PER_YEAR)⌉ ≤
            ⌈we - cursor⌉ - 1 := by
          calc ⌈we - (cursor +
              (DASHA_YEARS (DASHA_LORDS.getD ((li + k) % 9) "") : ℚ) * DAYS_PER_YEAR)⌉ ≤
              ⌈(we - cursor) - 1⌉ := Int.ceil_le_ceil hmono
            _ = ⌈we - cursor⌉ - 1 := by
                rw [show ((we - cursor) - 1 : ℚ) = (we - cursor) - (1 : ℤ) by push_cast; ring,
                  Int.ceil_sub_int]
        have hpos : (0 : ℤ) < ⌈we - cursor⌉ := Int.ceil_pos.mpr (by linarith)
        apply ih
        · omega
        · omega
